import Mathlib

/-!
Time-Date-golang: a shallow embedding of `main.go`.

The file models the time page handler `handler`, the liveness handler
`healthHandler` and the start-up routine `main`, together with the parts of the Go
standard library they call (`fmt`, `time`, `net/http`, `log`), and proves the
properties of the specification about them.

Go strings are modelled by `String` (lists of characters), Go `int` and `int64` by
`Int`, and `uint64` by `Nat` reduced modulo `2 ^ 64` where the library converts.
The clock reading `time.Now()` is an explicit argument of `handler`. The calendar
arithmetic follows `absDate` and `absClock` of the package `time` as of Go 1.22.
The request multiplexer follows `ServeMux` and `path.Clean` as of Go 1.21; later
versions route the two patterns of this program in the same way.
-/

namespace TimeDate

/-! ## Package fmt -/

/-- What `fmt` prints for a verb that does not apply to a string operand:
`%!verb(string=value)`. -/
def badVerb (verb : Char) (arg : String) : List Char :=
  "%!".data ++ verb :: ("(string=".data ++ arg.data ++ ")".data)

/-- What `fmt` prints for a verb with no operand left: `%!verb(MISSING)`. -/
def missingArg (verb : Char) : List Char :=
  "%!".data ++ verb :: "(MISSING)".data

/-- The operands listed in an `%!(EXTRA ...)` note, each as `string=value`,
separated by a comma and a space. -/
def extraList : List String → List Char
  | [] => []
  | [a] => "string=".data ++ a.data
  | a :: b :: as => "string=".data ++ a.data ++ ", ".data ++ extraList (b :: as)

/-- End of `doPrintf`: operands that no verb consumed are reported as
`%!(EXTRA string=..., ...)`. -/
def finishPrintf : List String → List Char
  | [] => []
  | a :: as => "%!(EXTRA ".data ++ extraList (a :: as) ++ ")".data

/-- How one string operand is printed under a verb: `%s` and `%v` print the
string itself, any other verb is reported as a bad verb. -/
def printArg (verb : Char) (arg : String) : List Char :=
  if verb = 's' ∨ verb = 'v' then arg.data else badVerb verb arg

/-- Model of the loop of `(*pp).doPrintf` for string operands. Text up to the next
`%` is copied; `%%` prints one `%`; any other verb consumes the next operand. A
`%` at the very end prints `%!(NOVERB)`. Flags, width, precision and explicit
argument indexes are not modelled: no format of this program uses them. -/
def doPrintf : List Char → List String → List Char
  | [], as => finishPrintf as
  | c :: rest, as =>
    if c ≠ '%' then c :: doPrintf rest as
    else
      match rest, as with
      | [], as => "%!(NOVERB)".data ++ finishPrintf as
      | verb :: rest1, as =>
        if verb = '%' then '%' :: doPrintf rest1 as
        else
          match as with
          | [] => missingArg verb ++ doPrintf rest1 []
          | a :: as1 => printArg verb a ++ doPrintf rest1 as1

/-- Model of `fmt.Sprintf(format, a...)` with string operands. -/
def Sprintf (format : String) (a : List String) : String :=
  String.mk (doPrintf format.data a)

/-- Model of `fmt.Sprint(a...)` for string operands: they are concatenated
(a space is added only between operands that are not strings). -/
def Sprint (a : List String) : String :=
  String.join a

/-- Model of `fmt.Sprintln(a...)` for string operands: they are separated by
spaces and a newline is appended. -/
def Sprintln (a : List String) : String :=
  String.intercalate " " a ++ "\n"

/-! ## Package net/http: headers and the response writer -/

/-- Model of `http.Header`: a map from canonical keys to value lists, kept as an
association list with at most one entry per key. -/
abbrev Header := List (String × List String)

/-- The bytes allowed in a header field name (`validHeaderFieldByte`): the
`token` characters of RFC 7230. -/
def validHeaderFieldByte (c : Char) : Bool :=
  c.isAlphanum || "!#$%&*+-.^_|~".data.contains c || c = Char.ofNat 39 || c = Char.ofNat 96

/-- The loop of `canonicalMIMEHeaderKey`: the first letter and every letter after
a hyphen is upper case, every other letter lower case. -/
def canonicalLoop : Bool → List Char → List Char
  | _, [] => []
  | upper, c :: cs =>
    let c1 := if upper && c.isLower then c.toUpper
              else if !upper && c.isUpper then c.toLower else c
    c1 :: canonicalLoop (c1 = '-') cs

/-- Model of `textproto.CanonicalMIMEHeaderKey`: a key with a byte that is not
allowed in a field name is returned unchanged. -/
def CanonicalMIMEHeaderKey (s : String) : String :=
  if s.data.all validHeaderFieldByte then String.mk (canonicalLoop true s.data) else s

/-- Model of `Header.Set`: the entry of the canonical key is replaced by the
single value. -/
def Header.Set (h : Header) (key value : String) : Header :=
  (CanonicalMIMEHeaderKey key, [value]) :: h.filter (fun e => e.1 ≠ CanonicalMIMEHeaderKey key)

/-- Model of `Header.Values`: all values of the canonical key, `none` when the key
is absent. -/
def Header.Values (h : Header) (key : String) : Option (List String) :=
  (h.find? (fun e => e.1 = CanonicalMIMEHeaderKey key)).map (fun e => e.2)

/-- Model of `url.URL`, as far as the request multiplexer reads it. -/
structure URL where
  Host : String
  Path : String
  RawQuery : String

/-- Model of `http.Request`, as far as the multiplexer and a handler can observe
it. -/
structure Request where
  Method : String
  URL : URL
  Host : String
  RequestURI : String
  Header : Header
  Body : String

/-- Model of the state behind an `http.ResponseWriter`. `header` is the map that
`Header()` returns; `wroteHeader`, `status` and `sentHeader` record the status line
and the header snapshot taken when the response header is written; `body` is what
`Write` has written. `detectContentType` stands for `http.DetectContentType`, which
the writer consults only when no `Content-Type` has been set. The state records
what the handler writes; that a server sends no body in reply to a `HEAD` request
is outside of it. -/
structure ResponseWriter where
  header : Header
  wroteHeader : Bool
  status : Nat
  sentHeader : Header
  body : String
  detectContentType : String → String

/-- A response writer on which nothing has been set or written yet. -/
def newResponse (detect : String → String) : ResponseWriter :=
  { header := [], wroteHeader := false, status := 0, sentHeader := [], body := "",
    detectContentType := detect }

/-- `http.StatusOK`. -/
def StatusOK : Nat := 200

/-- Model of `w.Header().Set(key, value)`: it changes the handler's header map; a
change made after the response header was written is not sent. -/
def ResponseWriter.SetHeader (w : ResponseWriter) (key value : String) : ResponseWriter :=
  { w with header := w.header.Set key value }

/-- Model of `ResponseWriter.WriteHeader`: the first call fixes the status code and
takes the snapshot of the header map that is sent; later calls are ignored. -/
def ResponseWriter.WriteHeader (w : ResponseWriter) (statusCode : Nat) : ResponseWriter :=
  if w.wroteHeader then w
  else { w with wroteHeader := true, status := statusCode, sentHeader := w.header }

/-- Model of `ResponseWriter.Write`: if `WriteHeader` has not been called it is
called with `http.StatusOK`; if data is written while the sent header has no
`Content-Type`, one is added from the first 512 bytes of the data; the data is
appended to the body. -/
def ResponseWriter.Write (w : ResponseWriter) (data : String) : ResponseWriter :=
  let w1 := if w.wroteHeader then w else w.WriteHeader StatusOK
  let w2 := if data ≠ "" ∧ (w1.sentHeader.Values "Content-Type").isNone then
      { w1 with sentHeader :=
          w1.sentHeader.Set "Content-Type" (w1.detectContentType (String.mk (data.data.take 512))) }
    else w1
  { w2 with body := w2.body ++ data }

/-- Model of `fmt.Fprint(w, a...)` on a response writer: the operands are formatted
as by `Sprint` and written with one `Write`. -/
def Fprint (w : ResponseWriter) (a : List String) : ResponseWriter :=
  w.Write (Sprint a)

/-! ## Package time -/

/-- Model of `time.zone`: the abbreviation and the offset east of UTC in
seconds that a location uses during some period. -/
structure Zone where
  name : String
  offset : Int
  deriving DecidableEq

/-- Model of `time.Location` through its method `lookup`: the zone in use at an
instant given in seconds since the Unix epoch. -/
structure Location where
  lookup : Int → Zone

/-- Model of `time.Time`: seconds since the Unix epoch, nanoseconds within the
second, and the location in which the instant is displayed. -/
structure Time where
  sec : Int
  nsec : Nat
  loc : Location

/-- Model of `Time.Compare(u) <= 0`: the instant `t` is not after the instant `u`. -/
def Time.notAfter (t u : Time) : Prop :=
  t.sec < u.sec ∨ (t.sec = u.sec ∧ t.nsec ≤ u.nsec)

instance (t u : Time) : Decidable (t.notAfter u) := by
  unfold Time.notAfter; exact inferInstance

/-- The constants of the package `time` for the lengths of minute, hour and day in
seconds and of the cycles of the Gregorian calendar in days. -/
def secondsPerMinute : Nat := 60
def secondsPerHour : Nat := 60 * secondsPerMinute
def secondsPerDay : Nat := 24 * secondsPerHour
def daysPer400Years : Nat := 365 * 400 + 97
def daysPer100Years : Nat := 365 * 100 + 24
def daysPer4Years : Nat := 365 * 4 + 1

/-- The year of the zero of the absolute time scale. -/
def absoluteZeroYear : Int := -292277022399

/-- The constant `unixToInternal + internalToAbsolute`: seconds from the absolute
zero (1 January of `absoluteZeroYear`) to the Unix epoch. -/
def unixToAbsolute : Int := 62135596800 + 9223371966579724800

/-- The zone in use at the instant `t` (`Time.Zone`). -/
def Time.zone (t : Time) : Zone := t.loc.lookup t.sec

/-- Model of `Time.abs`: the local time as seconds since the absolute zero,
converted to `uint64`. -/
def Time.abs (t : Time) : Nat :=
  ((t.sec + t.zone.offset + unixToAbsolute) % (2 : Int) ^ 64).toNat

/-- The table `daysBefore`: the number of days in a non-leap year before each
month, with the length of the year as last entry. -/
def daysBefore : List Nat := [0, 31, 59, 90, 120, 151, 181, 212, 243, 273, 304, 334, 365]

/-- Model of `isLeap`. -/
def isLeap (year : Int) : Bool :=
  year % 4 = 0 && (year % 100 ≠ 0 || year % 400 = 0)

/-- The first half of `absDate`: the year and the zero-based day of the year of an
absolute time, by cutting off 400-year, 100-year and 4-year cycles and then years. -/
def absYearDay (abs : Nat) : Int × Nat :=
  let d := abs / secondsPerDay
  let n := d / daysPer400Years
  let y := 400 * n
  let d := d - daysPer400Years * n
  let n := d / daysPer100Years
  let n := n - n / 4
  let y := y + 100 * n
  let d := d - daysPer100Years * n
  let n := d / daysPer4Years
  let y := y + 4 * n
  let d := d - daysPer4Years * n
  let n := d / 365
  let n := n - n / 4
  let y := y + n
  let d := d - 365 * n
  ((y : Int) + absoluteZeroYear, d)

/-- The second half of `absDate`: the month (1 to 12) and the day of the month of
the zero-based day `yday` of a year that is a leap year or not. -/
def monthDay (leap : Bool) (yday : Nat) : Nat × Nat :=
  if leap && yday = 31 + 29 - 1 then (2, 29)
  else
    let day := if leap && yday > 31 + 29 - 1 then yday - 1 else yday
    let month := day / 31
    let last := daysBefore.getD (month + 1) 0
    if day ≥ last then (month + 2, day - last + 1)
    else (month + 1, day - daysBefore.getD month 0 + 1)

/-- Model of `absDate(abs, true)`: year, month, day of the month and zero-based
day of the year. -/
def absDate (abs : Nat) : Int × Nat × Nat × Nat :=
  let yd := absYearDay abs
  let md := monthDay (isLeap yd.1) yd.2
  (yd.1, md.1, md.2, yd.2)

/-- Model of `absClock`: hour, minute and second within the day. -/
def absClock (abs : Nat) : Nat × Nat × Nat :=
  let sec := abs % secondsPerDay
  let hour := sec / secondsPerHour
  let sec := sec - hour * secondsPerHour
  let min := sec / secondsPerMinute
  let sec := sec - min * secondsPerMinute
  (hour, min, sec)

/-- The fields of the local date and time of `t`, as `Time.Date`, `Time.YearDay`
and `Time.Clock` return them. -/
def Time.Year (t : Time) : Int := (absDate t.abs).1
def Time.Month (t : Time) : Nat := (absDate t.abs).2.1
def Time.Day (t : Time) : Nat := (absDate t.abs).2.2.1
def Time.YearDay (t : Time) : Nat := (absDate t.abs).2.2.2 + 1
def Time.Hour (t : Time) : Nat := (absClock t.abs).1
def Time.Minute (t : Time) : Nat := (absClock t.abs).2.1
def Time.Second (t : Time) : Nat := (absClock t.abs).2.2

/-- The byte `'0' + n`. -/
def digitChar (n : Nat) : Char := Char.ofNat (48 + n)

/-- The loop of `appendInt` that assembles the decimal digits of `u` in reverse
order, in front of the digits already produced. -/
def utoaLoop : Nat → Nat → List Char → List Char
  | 0, u, acc => digitChar u :: acc
  | fuel + 1, u, acc =>
    if u ≥ 10 then utoaLoop fuel (u / 10) (digitChar (u % 10) :: acc)
    else digitChar u :: acc

/-- The decimal digits of `u`; the loop runs less than `u` times. -/
def utoa (u : Nat) : List Char := utoaLoop u u []

/-- Model of `appendInt(b, x, width)`: a minus sign for a negative `x`, then the
decimal digits of its absolute value, padded with zeros on the left to `width`
digits. -/
def appendInt (b : List Char) (x : Int) (width : Nat) : List Char :=
  let b1 := if x < 0 then b ++ ['-'] else b
  let ds := utoa x.natAbs
  b1 ++ List.replicate (width - ds.length) '0' ++ ds

/-- The layout elements that the model of `nextStdChunk` recognises. -/
inductive Std where
  | stdNumMonth | stdZeroMonth | stdDay | stdZeroDay | stdZeroYearDay
  | stdHour | stdHour12 | stdZeroHour12 | stdMinute | stdZeroMinute
  | stdSecond | stdZeroSecond | stdLongYear | stdYear | stdPM | stdpm | stdTZ
  deriving DecidableEq, Repr

/-- Whether the layout `l` starts with the text `p`, and what follows it. -/
def stripLit (p : String) (l : List Char) : Option (List Char) :=
  if p.data.isPrefixOf l then some (l.drop p.data.length) else none

/-- The layout element that starts at the head of the layout, with the rest of the
layout after it, in the order in which `nextStdChunk` tests them. -/
def stdAt (l : List Char) : Option (Std × List Char) :=
  match l with
  | [] => none
  | 'M' :: _ => (stripLit "MST" l).map (fun s => (Std.stdTZ, s))
  | '0' :: '1' :: s => some (Std.stdZeroMonth, s)
  | '0' :: '2' :: s => some (Std.stdZeroDay, s)
  | '0' :: '3' :: s => some (Std.stdZeroHour12, s)
  | '0' :: '4' :: s => some (Std.stdZeroMinute, s)
  | '0' :: '5' :: s => some (Std.stdZeroSecond, s)
  | '0' :: '6' :: s => some (Std.stdYear, s)
  | '0' :: '0' :: '2' :: s => some (Std.stdZeroYearDay, s)
  | '1' :: '5' :: s => some (Std.stdHour, s)
  | '1' :: s => some (Std.stdNumMonth, s)
  | '2' :: '0' :: '0' :: '6' :: s => some (Std.stdLongYear, s)
  | '2' :: s => some (Std.stdDay, s)
  | '3' :: s => some (Std.stdHour12, s)
  | '4' :: s => some (Std.stdMinute, s)
  | '5' :: s => some (Std.stdSecond, s)
  | 'P' :: 'M' :: s => some (Std.stdPM, s)
  | 'p' :: 'm' :: s => some (Std.stdpm, s)
  | _ => none

/-- Model of `nextStdChunk`: the literal text before the first layout element, that
element (`none` when the layout has none left) and the layout after it. The
elements modelled are the numeric date and clock fields, `PM`, `pm` and `MST`;
month and weekday names, `_2`, numeric zone offsets and fractional seconds are
not, and the layout of this program uses none of them. -/
def nextStdChunk : List Char → List Char × Option Std × List Char
  | [] => ([], none, [])
  | c :: cs =>
    match stdAt (c :: cs) with
    | some (std, suffix) => ([], some std, suffix)
    | none =>
      let r := nextStdChunk cs
      (c :: r.1, r.2.1, r.2.2)

/-- The case `stdTZ` of `appendFormat`: the abbreviation when the zone has one,
otherwise the offset as sign, two-digit hours and two-digit minutes. -/
def appendTZ (b : List Char) (z : Zone) : List Char :=
  if z.name ≠ "" then b ++ z.name.data
  else
    let zone := z.offset.tdiv 60
    let b1 := if zone < 0 then b ++ ['-'] else b ++ ['+']
    let zone := if zone < 0 then -zone else zone
    appendInt (appendInt b1 (zone.tdiv 60) 2) (zone.tmod 60) 2

/-- The switch of `appendFormat`: the text of one layout element for the time `t`. -/
def appendStd (t : Time) (b : List Char) : Std → List Char
  | .stdYear => appendInt b ((if t.Year < 0 then -t.Year else t.Year).tmod 100) 2
  | .stdLongYear => appendInt b t.Year 4
  | .stdNumMonth => appendInt b t.Month 0
  | .stdZeroMonth => appendInt b t.Month 2
  | .stdDay => appendInt b t.Day 0
  | .stdZeroDay => appendInt b t.Day 2
  | .stdZeroYearDay => appendInt b t.YearDay 3
  | .stdHour => appendInt b t.Hour 2
  | .stdHour12 => appendInt b (if t.Hour % 12 = 0 then 12 else t.Hour % 12 : Nat) 0
  | .stdZeroHour12 => appendInt b (if t.Hour % 12 = 0 then 12 else t.Hour % 12 : Nat) 2
  | .stdMinute => appendInt b t.Minute 0
  | .stdZeroMinute => appendInt b t.Minute 2
  | .stdSecond => appendInt b t.Second 0
  | .stdZeroSecond => appendInt b t.Second 2
  | .stdPM => if t.Hour ≥ 12 then b ++ "PM".data else b ++ "AM".data
  | .stdpm => if t.Hour ≥ 12 then b ++ "pm".data else b ++ "am".data
  | .stdTZ => appendTZ b t.zone

/-- The loop of `appendFormat`: each round copies the literal text before the next
layout element and then prints that element. Every round shortens the layout, so
`layout.length + 1` rounds reach its end. -/
def appendFormatLoop (t : Time) : Nat → List Char → List Char → List Char
  | 0, b, _ => b
  | fuel + 1, b, layout =>
    if layout = [] then b
    else
      let r := nextStdChunk layout
      match r.2.1 with
      | none => b ++ r.1
      | some std => appendFormatLoop t fuel (appendStd t (b ++ r.1) std) r.2.2

/-- Model of `Time.Format(layout)`. -/
def Time.Format (t : Time) (layout : String) : String :=
  String.mk (appendFormatLoop t (layout.data.length + 1) [] layout.data)

/-! ## Package net/http: the request multiplexer -/

/-- Model of `http.ServeMux`: `m` maps each registered pattern to its handler, `es`
lists the entries whose pattern ends in `/`, longest pattern first, and `hosts`
tells whether some pattern starts with a host name. -/
structure ServeMux (α : Type) where
  m : List (String × α)
  es : List (String × α)
  hosts : Bool

/-- Model of `appendSorted`: the entry is inserted before the first entry with a
shorter pattern. -/
def appendSorted {α : Type} (es : List (String × α)) (e : String × α) : List (String × α) :=
  es.takeWhile (fun x => ¬ x.1.length < e.1.length) ++
    e :: es.dropWhile (fun x => ¬ x.1.length < e.1.length)

/-- Model of `(*ServeMux).Handle` for a pattern that is not empty and not yet
registered (otherwise `Handle` panics): the pattern is entered in the map, and in
the sorted list when it ends in `/`; a pattern that does not start with `/` starts
with a host name. -/
def ServeMux.Handle {α : Type} (mux : ServeMux α) (pattern : String) (h : α) : ServeMux α :=
  { m := mux.m ++ [(pattern, h)],
    es := if pattern.data.getLast? = some '/' then appendSorted mux.es (pattern, h) else mux.es,
    hosts := if pattern.data.head? ≠ some '/' then true else mux.hosts }

/-- Model of `(*ServeMux).match`: an exact match of the path wins; otherwise the
longest registered pattern ending in `/` that is a prefix of the path. -/
def ServeMux.muxMatch {α : Type} (mux : ServeMux α) (path : String) : Option (α × String) :=
  match mux.m.find? (fun e => e.1 = path) with
  | some e => some (e.2, e.1)
  | none =>
    match mux.es.find? (fun e => e.1.data.isPrefixOf path.data) with
    | some e => some (e.2, e.1)
    | none => none

/-- The outcome of dispatching a request: the registered handler that serves it,
the reply `404 page not found` of `http.NotFoundHandler`, a redirect with status
301 to the URL with the given path and query, or the reply 400 to the request
URI `*`. -/
inductive Dispatch (α : Type) where
  | serve (h : α) (pattern : String)
  | notFound
  | redirect (path : String) (rawQuery : String)
  | badRequest

/-- Model of `(*ServeMux).handler(host, path)`: a host-specific pattern takes
precedence, then the handler matched by the path, else the not-found handler. -/
def ServeMux.handler {α : Type} (mux : ServeMux α) (host path : String) : Dispatch α :=
  let byHost := if mux.hosts then mux.muxMatch (host ++ path) else none
  let found := match byHost with
    | some x => some x
    | none => mux.muxMatch path
  match found with
  | some (h, pattern) => Dispatch.serve h pattern
  | none => Dispatch.notFound

/-- The loop of a `..` element in `path.Clean`: the write index goes back while it
is above `dotdot` and the character at the index is not a slash. -/
def backtrackTo (out : List Char) (dotdot : Nat) : Nat → Nat
  | 0 => 0
  | w + 1 =>
    if w + 1 > dotdot ∧ out.getD (w + 1) '/' ≠ '/' then backtrackTo out dotdot w else w + 1

/-- The loop of `path.Clean` over the rest of the path: an empty element and a `.`
element are skipped, a `..` element removes the last element written (or is kept
when the path is not rooted and nothing can be removed), any other element is
copied after a slash. Every round consumes a character, so `length + 1` rounds
reach the end. -/
def cleanLoop (rooted : Bool) : Nat → List Char → List Char → Nat → List Char
  | 0, _, out, _ => out
  | fuel + 1, rest, out, dotdot =>
    match rest with
    | [] => out
    | c :: r1 =>
      if c = '/' then cleanLoop rooted fuel r1 out dotdot
      else if c = '.' ∧ (r1 = [] ∨ r1.head? = some '/') then
        cleanLoop rooted fuel r1 out dotdot
      else if c = '.' ∧ r1.head? = some '.' ∧ (r1.tail = [] ∨ r1.tail.head? = some '/') then
        if out.length > dotdot then
          cleanLoop rooted fuel r1.tail
            (out.take (backtrackTo out dotdot (out.length - 1))) dotdot
        else if !rooted then
          let out1 := (if out.length > 0 then out ++ ['/'] else out) ++ ['.', '.']
          cleanLoop rooted fuel r1.tail out1 out1.length
        else cleanLoop rooted fuel r1.tail out dotdot
      else
        let out1 :=
          if (rooted && out.length ≠ 1) || (!rooted && out.length ≠ 0) then out ++ ['/']
          else out
        cleanLoop rooted fuel ((c :: r1).dropWhile (fun x => x ≠ '/'))
          (out1 ++ (c :: r1).takeWhile (fun x => x ≠ '/')) dotdot

/-- Model of `path.Clean`: the shortest path equivalent to `path` by purely lexical
processing. -/
def Clean (path : String) : String :=
  if path = "" then "."
  else
    let rooted : Bool := path.data.head? = some '/'
    let out := cleanLoop rooted (path.data.length + 1)
      (if rooted then path.data.tail else path.data)
      (if rooted then ['/'] else []) (if rooted then 1 else 0)
    if out = [] then "." else String.mk out

/-- Model of `cleanPath` of `net/http`: the canonical form of a request path, which
starts with a slash, has no `.` and `..` elements and no repeated slashes, and
keeps a trailing slash. -/
def cleanPath (p : String) : String :=
  if p = "" then "/"
  else
    let p1 := if p.data.head? ≠ some '/' then "/" ++ p else p
    let np := Clean p1
    if p1.data.getLast? = some '/' ∧ np ≠ "/" then
      if p1.data.length = np.data.length + 1 ∧ np.data.isPrefixOf p1.data then p1
      else np ++ "/"
    else np

/-- Model of `(*ServeMux).shouldRedirectRLocked`: whether the path has no handler of
its own while the path followed by a slash is a registered pattern. -/
def ServeMux.shouldRedirectRLocked {α : Type} (mux : ServeMux α) (host path : String) : Bool :=
  let p := [path, host ++ path]
  if p.any (fun c => (mux.m.find? (fun e => e.1 = c)).isSome) then false
  else if path.data.length = 0 then false
  else if p.any (fun c => (mux.m.find? (fun e => e.1 = c ++ "/")).isSome) then
    path.data.getLast? ≠ some '/'
  else false

/-- Model of `(*ServeMux).Handler`: the handler for a request. A `CONNECT` request
is matched as it is. For any other request the port is stripped from the host and
the path is cleaned; a request whose path is not in canonical form is answered by
a redirect to the canonical path, and a request with a canonical path is matched
by `handler`. `stripHostPort` stands for the function of that name. -/
def ServeMux.Handler {α : Type} (mux : ServeMux α) (stripHostPort : String → String)
    (r : Request) : Dispatch α :=
  if r.Method = "CONNECT" then
    if mux.shouldRedirectRLocked r.URL.Host r.URL.Path then
      Dispatch.redirect (r.URL.Path ++ "/") r.URL.RawQuery
    else mux.handler r.Host r.URL.Path
  else
    let host := stripHostPort r.Host
    let path := cleanPath r.URL.Path
    if mux.shouldRedirectRLocked host path then
      Dispatch.redirect (path ++ "/") r.URL.RawQuery
    else if path ≠ r.URL.Path then Dispatch.redirect path r.URL.RawQuery
    else mux.handler host r.URL.Path

/-- Model of `(*ServeMux).ServeHTTP` up to the call of the handler it selects: the
request URI `*` is answered with status 400, any other request by the handler that
`Handler` returns. -/
def ServeMux.dispatch {α : Type} (mux : ServeMux α) (stripHostPort : String → String)
    (r : Request) : Dispatch α :=
  if r.RequestURI = "*" then Dispatch.badRequest
  else mux.Handler stripHostPort r

/-! ## main.go -/

/-- Concatenation of the strings of a list, in order. -/
def joinLines : List String → String
  | [] => ""
  | s :: ss => s ++ joinLines ss

/-- The template of `handler` up to the line with the gradient, one string per line. -/
def pageHead : List String :=
  ["\n",
   "<!DOCTYPE html>\n",
   "<html>\n",
   "<head>\n",
   "    <title>Current Date & Time</title>\n",
   "    <style>\n",
   "        body \x7b\n",
   "            font-family: Arial, sans-serif;\n",
   "            display: flex;\n",
   "            justify-content: center;\n",
   "            align-items: center;\n",
   "            height: 100vh;\n",
   "            margin: 0;\n"]

/-- The line of the template with the two `%%`. -/
def gradientFormat : String :=
  "            background: linear-gradient(135deg, #667eea 0%%, #764ba2 100%%);\n"

/-- The same line as it is rendered, with a single per cent sign for each `%%`. -/
def gradientText : String :=
  "            background: linear-gradient(135deg, #667eea 0%, #764ba2 100%);\n"

/-- The template from the line after the gradient up to the opening tag in front of `%s`. -/
def pageBody : List String :=
  ["            color: white;\n",
   "        \x7d\n",
   "        .container \x7b\n",
   "            text-align: center;\n",
   "            background: rgba(255, 255, 255, 0.1);\n",
   "            padding: 40px;\n",
   "            border-radius: 20px;\n",
   "            backdrop-filter: blur(10px);\n",
   "            box-shadow: 0 8px 32px 0 rgba(31, 38, 135, 0.37);\n",
   "        \x7d\n",
   "        h1 \x7b\n",
   "            font-size: 3em;\n",
   "            margin-bottom: 20px;\n",
   "            text-shadow: 2px 2px 4px rgba(0,0,0,0.3);\n",
   "        \x7d\n",
   "        .time \x7b\n",
   "            font-size: 2em;\n",
   "            font-weight: bold;\n",
   "            margin: 20px 0;\n",
   "            padding: 20px;\n",
   "            background: rgba(255, 255, 255, 0.2);\n",
   "            border-radius: 10px;\n",
   "            border: 1px solid rgba(255, 255, 255, 0.3);\n",
   "        \x7d\n",
   "        .refresh \x7b\n",
   "            margin-top: 30px;\n",
   "        \x7d\n",
   "        .refresh a \x7b\n",
   "            color: white;\n",
   "            text-decoration: none;\n",
   "            padding: 10px 20px;\n",
   "            background: rgba(255, 255, 255, 0.2);\n",
   "            border-radius: 5px;\n",
   "            border: 1px solid rgba(255, 255, 255, 0.3);\n",
   "            transition: background 0.3s;\n",
   "        \x7d\n",
   "        .refresh a:hover \x7b\n",
   "            background: rgba(255, 255, 255, 0.3);\n",
   "        \x7d\n",
   "    </style>\n",
   "    <meta http-equiv=\"refresh\" content=\"5\">\n",
   "</head>\n",
   "<body>\n",
   "    <div class=\"container\">\n",
   "        <h1> Current Date & Time</h1>\n",
   "        <div class=\"time\">"]

/-- The template after `%s`, from the closing tag of the time element to the end. -/
def pageFoot : List String :=
  ["</div>\n",
   "        <div class=\"refresh\">\n",
   "            <a href=\"/\">Refresh</a>\n",
   "        </div>\n",
   "    </div>\n",
   "</body>\n",
   "</html>"]

/-- The format string of `handler`: the HTML page with `%s` in the place of the
timestamp and `%%` for each per cent sign of the stylesheet. -/
def pageTemplate : String :=
  joinLines (pageHead ++ [gradientFormat] ++ pageBody ++ ["%s"] ++ pageFoot)

/-- The page in front of the timestamp, as it is rendered. -/
def pagePrefix : String :=
  joinLines (pageHead ++ [gradientText] ++ pageBody)

/-- The page after the timestamp, as it is rendered. -/
def pageSuffix : String :=
  joinLines pageFoot

/-- The layout that `handler` passes to `Format`. -/
def timeLayout : String := "2006-01-02 15:04:05 MST"

/-- The function `handler` of `main.go`; `now` is the result of `time.Now()`. -/
def handler (w : ResponseWriter) (_r : Request) (now : Time) : ResponseWriter :=
  let currentTime := now
  let timeStr := currentTime.Format timeLayout
  let html := Sprintf pageTemplate [timeStr]
  let w := w.SetHeader "Content-Type" "text/html"
  Fprint w [html]

/-- The function `healthHandler` of `main.go`. -/
def healthHandler (w : ResponseWriter) (_r : Request) : ResponseWriter :=
  let w := w.WriteHeader StatusOK
  Fprint w ["OK"]

/-- The two functions that `main` registers. -/
inductive HandlerFunc where
  | handler
  | healthHandler
  deriving DecidableEq, Repr

/-- Serving a request with a registered function; only `handler` reads the clock. -/
def HandlerFunc.ServeHTTP (f : HandlerFunc) (w : ResponseWriter) (r : Request) (now : Time) :
    ResponseWriter :=
  match f with
  | .handler => TimeDate.handler w r now
  | .healthHandler => TimeDate.healthHandler w r

/-- What the process does that is visible from outside, in order. -/
inductive Event where
  | stdout (text : String)
  | listen (addr : String) (mux : ServeMux HandlerFunc)
  | log (text : String)
  | exit (code : Nat)

/-- Model of `log.Fatal(v)`: the value is printed by the standard logger, then the
process exits with status 1. -/
def logFatal (v : String) : List Event :=
  [Event.log (Sprint [v]), Event.exit 1]

/-- The function `main` of `main.go`, as the trace of its events. `DefaultServeMux`
starts empty. `serveResult` is the outcome of `http.ListenAndServe`: `some err` when
it returns the error `err`, `none` when it keeps serving and never returns. -/
def main (serveResult : Option String) : List Event :=
  let DefaultServeMux : ServeMux HandlerFunc := { m := [], es := [], hosts := false }
  let DefaultServeMux := DefaultServeMux.Handle "/" HandlerFunc.handler
  let DefaultServeMux := DefaultServeMux.Handle "/health" HandlerFunc.healthHandler
  let port := ":8080"
  let out1 := Event.stdout (Sprintf "Server starting on port %s\n" [port])
  let out2 := Event.stdout
    (Sprintln ["Visit http://localhost:8080 to see the current date and time"])
  let serving := Event.listen port DefaultServeMux
  match serveResult with
  | none => [out1, out2, serving]
  | some err => [out1, out2, serving] ++ logFatal err

/-- The multiplexer that `main` hands to the listener. -/
def mainMux : ServeMux HandlerFunc :=
  (({ m := [], es := [], hosts := false } : ServeMux HandlerFunc).Handle "/"
    HandlerFunc.handler).Handle
    "/health" HandlerFunc.healthHandler


/-! ## Definitions used in the statements and proofs -/

/-- The year count and day of the year that `absYearDay` computes from a number of days. -/
def yearOfDays (d : Nat) : Nat × Nat :=
  let n := d / daysPer400Years
  let y := 400 * n
  let d := d - daysPer400Years * n
  let n := d / daysPer100Years
  let n := n - n / 4
  let y := y + 100 * n
  let d := d - daysPer100Years * n
  let n := d / daysPer4Years
  let y := y + 4 * n
  let d := d - daysPer4Years * n
  let n := d / 365
  let n := n - n / 4
  let y := y + n
  let d := d - 365 * n
  (y, d)

/-- The text that `appendInt` appends for `x` with the given width. -/
def fmtInt (x : Int) (width : Nat) : List Char := appendInt [] x width

/-- The text that `appendTZ` appends for the zone `z`. -/
def fmtTZ (z : Zone) : List Char := appendTZ [] z

/-- Two decimal digits of a number below 100, the tens first. -/
def twoDigits (n : Nat) : List Char := [digitChar (n / 10), digitChar (n % 10)]

/-- Four decimal digits of a number below 10000, the thousands first. -/
def fourDigits (n : Nat) : List Char :=
  [digitChar (n / 1000), digitChar (n / 100 % 10), digitChar (n / 10 % 10), digitChar (n % 10)]

/-- The pattern of the specification, `YYYY-MM-DD HH:MM:SS Z`: the four digits of the
year, the two digits of month, day, hour, minute and second with their separators,
a space and the zone abbreviation. -/
def timestampText (year month day hour minute second : Nat) (Z : String) : String :=
  String.mk (fourDigits year ++ '-' :: (twoDigits month ++ '-' :: (twoDigits day ++ ' ' ::
    (twoDigits hour ++ ':' :: (twoDigits minute ++ ':' :: (twoDigits second ++ ' ' ::
      Z.data))))))

/-- A request `GET /` without headers or body. -/
def getRoot : Request :=
  { Method := "GET", URL := { Host := "", Path := "/", RawQuery := "" },
    Host := "localhost:8080", RequestURI := "/", Header := [], Body := "" }

/-- The location UTC. -/
def utcLocation : Location := { lookup := fun _ => { name := "UTC", offset := 0 } }

/-- The location America/New_York around 2024: daylight time (EDT, UTC-4) from
2024-03-10 07:00:00 UTC until 2024-11-03 06:00:00 UTC, standard time (EST, UTC-5)
before and after. -/
def newYork : Location :=
  { lookup := fun sec =>
      if 1710054000 ≤ sec ∧ sec < 1730613600 then { name := "EDT", offset := -14400 }
      else { name := "EST", offset := -18000 } }

/-- The instant 2024-03-15 13:30:00 UTC on a server in New York: local time
2024-03-15 09:30:00 EDT. -/
def march15 : Time := { sec := 1710509400, nsec := 0, loc := newYork }

/-- The instant 10000-01-01 00:00:00 UTC on a server in UTC. -/
def year10000 : Time := { sec := 253402300800, nsec := 0, loc := utcLocation }

/-- A location whose only zone has no abbreviation, five and a half hours east of UTC. -/
def unnamedZone : Location := { lookup := fun _ => { name := "", offset := 19800 } }

/-- The Unix epoch on a server whose zone has no abbreviation. -/
def epochUnnamed : Time := { sec := 0, nsec := 0, loc := unnamedZone }

/-- Whether the list starts with elements that satisfy the tests of the pattern,
one element for each test, in order. -/
def matchAt {α : Type} : List (α → Bool) → List α → Bool
  | [], _ => true
  | _ :: _, [] => false
  | p :: ps, c :: cs => p c && matchAt ps cs

/-- The number of positions of the list at which the pattern matches. -/
def countMatches {α : Type} (pat : List (α → Bool)) : List α → Nat
  | [] => if matchAt pat [] then 1 else 0
  | c :: cs => (if matchAt pat (c :: cs) then 1 else 0) + countMatches pat cs

/-- The number of occurrences of the text `sub` in `s`. -/
def occurrences (sub s : String) : Nat :=
  countMatches (sub.data.map (fun c x => x == c)) s.data

/-- An ASCII digit. -/
def isDigitByte (c : Char) : Bool := decide (48 ≤ c.toNat ∧ c.toNat ≤ 57)

/-- An ASCII letter. -/
def isLetterByte (c : Char) : Bool :=
  decide ((65 ≤ c.toNat ∧ c.toNat ≤ 90) ∨ (97 ≤ c.toNat ∧ c.toNat ≤ 122))

/-- The pattern `YYYY-MM-DD HH:MM:SS <abbreviation>` of the specification: four
digits, `-`, two digits, `-`, two digits, a space, two digits, `:`, two digits, `:`,
two digits, a space and three letters. An abbreviation of more than three letters
matches at the same position, so that counting the positions where this pattern
matches counts the timestamps with an abbreviation of three or more letters. -/
def timestampPattern : List (Char → Bool) :=
  [isDigitByte, isDigitByte, isDigitByte, isDigitByte, fun c => c == '-',
   isDigitByte, isDigitByte, fun c => c == '-', isDigitByte, isDigitByte, fun c => c == ' ',
   isDigitByte, isDigitByte, fun c => c == ':', isDigitByte, isDigitByte, fun c => c == ':',
   isDigitByte, isDigitByte, fun c => c == ' ', isLetterByte, isLetterByte, isLetterByte]

/-- The kinds of characters that the timestamp pattern tells apart. -/
inductive CharClass where
  | digit | dash | space | colon | letter | other
  deriving DecidableEq, Repr

/-- The kind of a character. -/
def classify (c : Char) : CharClass :=
  if isDigitByte c then CharClass.digit
  else if c = '-' then CharClass.dash
  else if c = ' ' then CharClass.space
  else if c = ':' then CharClass.colon
  else if isLetterByte c then CharClass.letter
  else CharClass.other

/-- The timestamp pattern on kinds of characters. -/
def classPattern : List (CharClass → Bool) :=
  [fun k => k == .digit, fun k => k == .digit, fun k => k == .digit, fun k => k == .digit,
   fun k => k == .dash, fun k => k == .digit, fun k => k == .digit, fun k => k == .dash,
   fun k => k == .digit, fun k => k == .digit, fun k => k == .space,
   fun k => k == .digit, fun k => k == .digit, fun k => k == .colon,
   fun k => k == .digit, fun k => k == .digit, fun k => k == .colon,
   fun k => k == .digit, fun k => k == .digit, fun k => k == .space,
   fun k => k == .letter, fun k => k == .letter, fun k => k == .letter]

/-- Whether a line is empty or ends in a character that no test of the pattern
accepts, so that no match extends beyond the line. -/
def endsInSeparator {α : Type} (pat : List (α → Bool)) (l : List α) : Bool :=
  match l.getLast? with
  | none => true
  | some c => pat.all (fun p => !p c)

/-- The location America/Sao_Paulo since 2019: no daylight time, three hours west of
UTC, with the abbreviation `-03` of the time zone database. -/
def saoPaulo : Location := { lookup := fun _ => { name := "-03", offset := -10800 } }

/-- The instant 2024-03-15 13:30:00 UTC on a server in Sao Paulo. -/
def march15SaoPaulo : Time := { sec := 1710509400, nsec := 0, loc := saoPaulo }

/-- The meta-refresh directive of the page: reload after 5 seconds. -/
def metaRefresh : String := "<meta http-equiv=\"refresh\" content=\"5\">"

/-- The link of the page to the root path. -/
def refreshLink : String := "<a href=\"/\">Refresh</a>"

/-- The characters that HTML escaping replaces: `<`, `>`, `&`, the double quote
(code 34) and the apostrophe (code 39). -/
def htmlUnsafe (c : Char) : Bool :=
  c = '<' || c = '>' || c = '&' || c = Char.ofNat 34 || c = Char.ofNat 39

/-- A location whose zone abbreviation is the text `<b>`. -/
def markupZone : Location := { lookup := fun _ => { name := "<b>", offset := 0 } }

/-- The Unix epoch on a server whose zone abbreviation is `<b>`. -/
def epochMarkup : Time := { sec := 0, nsec := 0, loc := markupZone }

/-- Lexicographic comparison of two lists, element by element; a proper initial
segment comes first. On strings this is the comparison of Go. -/
def lexCompare {α : Type} [LT α] [DecidableRel (fun a b : α => a < b)] [DecidableEq α] :
    List α → List α → Ordering
  | [], [] => Ordering.eq
  | [], _ :: _ => Ordering.lt
  | _ :: _, [] => Ordering.gt
  | a :: as, b :: bs =>
    if a < b then Ordering.lt else if a = b then lexCompare as bs else Ordering.gt

/-- The local date and time that a timestamp displays: year, month, day, hour,
minute and second. -/
def Time.civil (t : Time) : List Int :=
  [t.Year, t.Month, t.Day, t.Hour, t.Minute, t.Second]

/-- The last second of daylight time in New York in 2024: 2024-11-03 05:59:59 UTC,
local time 01:59:59 EDT. -/
def beforeFallBack : Time := { sec := 1730613599, nsec := 0, loc := newYork }

/-- One second later: 2024-11-03 06:00:00 UTC, local time 01:00:00 EST. -/
def afterFallBack : Time := { sec := 1730613600, nsec := 0, loc := newYork }

/-- The last second of the year 9999 in UTC. -/
def endOf9999 : Time := { sec := 253402300799, nsec := 0, loc := utcLocation }

/-- Five seconds after `march15`, on the same server. -/
def march15Later : Time := { sec := 1710509405, nsec := 0, loc := newYork }

/-- A request `GET /foo`. -/
def getFoo : Request :=
  { Method := "GET", URL := { Host := "", Path := "/foo", RawQuery := "" },
    Host := "localhost:8080", RequestURI := "/foo", Header := [], Body := "" }

/-! ## Lemmas on formatting -/

theorem doPrintf_plain (lit rest : List Char) (as : List String)
    (h : lit.all (fun c => c ≠ '%') = true) :
    doPrintf (lit ++ rest) as = lit ++ doPrintf rest as := by
  induction lit with
  | nil => rfl
  | cons c cs ih =>
    simp only [List.all_cons, Bool.and_eq_true, decide_eq_true_eq] at h
    show doPrintf (c :: (cs ++ rest)) as = c :: (cs ++ doPrintf rest as)
    rw [doPrintf.eq_def]
    simp only [h.1, ne_eq, not_false_eq_true, if_true, ih h.2]

theorem doPrintf_percent (l rest : List Char) (as : List String) :
    doPrintf (('%' :: '%' :: l) ++ rest) as = '%' :: doPrintf (l ++ rest) as := by
  simp [doPrintf]

theorem doPrintf_verb_s (rest : List Char) (a : String) (as : List String) :
    doPrintf (['%', 's'] ++ rest) (a :: as) = a.data ++ doPrintf rest as := by
  simp [doPrintf, printArg]

theorem doPrintf_gradient (rest : List Char) (as : List String) :
    doPrintf (gradientFormat.data ++ rest) as = gradientText.data ++ doPrintf rest as := by
  have h1 : gradientFormat.data =
      "            background: linear-gradient(135deg, #667eea 0".data ++
        '%' :: '%' :: (", #764ba2 100".data ++ '%' :: '%' :: ");\n".data) := by decide
  have h2 : gradientText.data =
      "            background: linear-gradient(135deg, #667eea 0".data ++
        ('%' :: (", #764ba2 100".data ++ ('%' :: ");\n".data))) := by decide
  rw [h1, h2, List.append_assoc, doPrintf_plain _ _ _ (by decide), doPrintf_percent,
    List.append_assoc, doPrintf_plain _ _ _ (by decide), doPrintf_percent,
    doPrintf_plain _ _ _ (by decide)]
  rfl

theorem joinLines_data (ls : List String) :
    (joinLines ls).data = (ls.map String.data).flatten := by
  induction ls with
  | nil => rfl
  | cons s ss ih => simp [joinLines, String.data_append, ih]

theorem doPrintf_lines (ls : List String) (rest : List Char) (as : List String)
    (h : ls.all (fun l => l.data.all (fun c => c ≠ '%')) = true) :
    doPrintf ((ls.map String.data).flatten ++ rest) as =
      (ls.map String.data).flatten ++ doPrintf rest as := by
  induction ls with
  | nil => rfl
  | cons s ss ih =>
    simp only [List.all_cons, Bool.and_eq_true] at h
    simp only [List.map_cons, List.flatten_cons, List.append_assoc]
    rw [doPrintf_plain _ _ _ h.1, ih h.2]

theorem sprintf_template (a : String) (as : List String) :
    Sprintf pageTemplate (a :: as) =
      pagePrefix ++ a ++ pageSuffix ++ String.mk (finishPrintf as) := by
  apply String.ext
  simp only [Sprintf, pageTemplate, pagePrefix, pageSuffix, joinLines_data, String.data_append,
    List.map_append, List.flatten_append, List.append_assoc, List.map_cons, List.map_nil,
    List.flatten_cons, List.flatten_nil, List.append_nil]
  rw [doPrintf_lines pageHead _ _ (by decide), doPrintf_gradient,
    doPrintf_lines pageBody _ _ (by decide), doPrintf_verb_s]
  have := doPrintf_lines pageFoot [] as (by decide)
  simp only [List.append_nil] at this
  rw [this]
  rfl


theorem joinLines_append (xs ys : List String) :
    joinLines (xs ++ ys) = joinLines xs ++ joinLines ys := by
  induction xs with
  | nil => simp [joinLines]
  | cons x xs ih => simp [joinLines, ih, String.append_assoc]

theorem joinLines_singleton (s : String) : joinLines [s] = s := by
  simp [joinLines]

theorem count_joinLines (ls : List String) (c : Char) :
    (joinLines ls).data.count c = (ls.map (fun l => l.data.count c)).sum := by
  induction ls with
  | nil => rfl
  | cons s ss ih => simp [joinLines, String.data_append, List.count_append, ih]

theorem doPrintf_pageTemplate (as : List String) :
    doPrintf pageTemplate.data as =
      pagePrefix.data ++ doPrintf (['%', 's'] ++ pageSuffix.data) as := by
  simp only [pageTemplate, pagePrefix, pageSuffix, joinLines_data, String.data_append,
    List.map_append, List.flatten_append, List.append_assoc, List.map_cons, List.map_nil,
    List.flatten_cons, List.flatten_nil, List.append_nil]
  rw [doPrintf_lines pageHead _ _ (by decide), doPrintf_gradient,
    doPrintf_lines pageBody _ _ (by decide)]

theorem doPrintf_pageSuffix (as : List String) :
    doPrintf pageSuffix.data as = pageSuffix.data ++ finishPrintf as := by
  simp only [pageSuffix, joinLines_data]
  have := doPrintf_lines pageFoot [] as (by decide)
  simp only [List.append_nil] at this
  rw [this]
  rfl

theorem sprintf_template_missing :
    Sprintf pageTemplate [] = pagePrefix ++ "%!s(MISSING)" ++ pageSuffix := by
  apply String.ext
  rw [Sprintf, doPrintf_pageTemplate]
  have h : doPrintf (['%', 's'] ++ pageSuffix.data) [] =
      "%!s(MISSING)".data ++ doPrintf pageSuffix.data [] := by
    simp [doPrintf, missingArg]
  rw [h, doPrintf_pageSuffix]
  simp [String.data_append, finishPrintf]

theorem pagePrefix_ends : ∃ p : String, pagePrefix = p ++ "<div class=\"time\">" := by
  refine ⟨joinLines (pageHead ++ [gradientText] ++ pageBody.dropLast) ++ "        ", ?_⟩
  have h1 : pageBody = pageBody.dropLast ++ ["        " ++ "<div class=\"time\">"] := by decide
  rw [pagePrefix]
  conv_lhs => rw [h1]
  rw [← List.append_assoc, joinLines_append, joinLines_singleton, String.append_assoc]

theorem pageSuffix_starts : ∃ s : String, pageSuffix = "</div>" ++ s := by
  refine ⟨"\n" ++ joinLines pageFoot.tail, ?_⟩
  have h1 : pageFoot = ("</div>" ++ "\n") :: pageFoot.tail := by decide
  rw [pageSuffix]
  conv_lhs => rw [h1]
  rw [joinLines, String.append_assoc]

set_option maxRecDepth 100000 in
theorem percent_counts : pageTemplate.data.count '%' = 5 ∧
    pagePrefix.data.count '%' = 2 ∧ pageSuffix.data.count '%' = 0 := by
  simp only [pageTemplate, pagePrefix, pageSuffix, count_joinLines, List.map_append, List.sum_append]
  decide


/-! ## Lemmas on the calendar -/


theorem absYearDay_eq (abs : Nat) :
    absYearDay abs = (((yearOfDays (abs / secondsPerDay)).1 : Int) + absoluteZeroYear,
      (yearOfDays (abs / secondsPerDay)).2) := rfl

theorem stage100 (r : Nat) (h : r < 146097) :
    r / 36524 - r / 36524 / 4 ≤ 3 ∧ 36524 * (r / 36524 - r / 36524 / 4) ≤ r ∧
    r - 36524 * (r / 36524 - r / 36524 / 4) ≤ 36524 ∧
    (r / 36524 - r / 36524 / 4 < 3 → r - 36524 * (r / 36524 - r / 36524 / 4) < 36524) := by
  omega

theorem stage4 (r : Nat) (h : r ≤ 36524) :
    r / 1461 ≤ 24 ∧ 1461 * (r / 1461) ≤ r ∧ r - 1461 * (r / 1461) < 1461 ∧
    (r / 1461 = 24 → r < 36524 → r - 1461 * (r / 1461) < 1460) := by
  omega

theorem stage1 (r : Nat) (h : r < 1461) :
    r / 365 - r / 365 / 4 ≤ 3 ∧ 365 * (r / 365 - r / 365 / 4) ≤ r ∧
    r - 365 * (r / 365 - r / 365 / 4) ≤ 365 ∧
    (r - 365 * (r / 365 - r / 365 / 4) = 365 → r / 365 - r / 365 / 4 = 3 ∧ r = 1460) := by
  omega

/-- The cycle counts behind `yearOfDays`: 400-year cycles `a`, centuries `b`, 4-year
cycles `c`, years `e` and the day of the year `yd`, with their ranges. -/
theorem cycleRep (d : Nat) : ∃ a b c e yd : Nat,
    d = 146097 * a + 36524 * b + 1461 * c + 365 * e + yd ∧ b ≤ 3 ∧ c ≤ 24 ∧ e ≤ 3 ∧
    yd ≤ 365 ∧ (yd = 365 → e = 3 ∧ (c < 24 ∨ b = 3)) ∧
    yearOfDays d = (400 * a + 100 * b + 4 * c + e, yd) := by
  have h400 : d - 146097 * (d / 146097) < 146097 := by omega
  have h400' : 146097 * (d / 146097) ≤ d := by omega
  generalize hr : d - 146097 * (d / 146097) = r at h400
  obtain ⟨hb, hb', hr1, hr1'⟩ := stage100 r h400
  generalize hbb : r / 36524 - r / 36524 / 4 = b at hb hb' hr1 hr1'
  generalize hr' : r - 36524 * b = r1 at hr1 hr1'
  obtain ⟨hc, hc', hr2, hr2'⟩ := stage4 r1 hr1
  generalize hcc : r1 / 1461 = c at hc hc' hr2 hr2'
  generalize hr'' : r1 - 1461 * c = r2 at hr2 hr2'
  obtain ⟨he, he', hr3, hr3'⟩ := stage1 r2 hr2
  generalize hee : r2 / 365 - r2 / 365 / 4 = e at he he' hr3 hr3'
  refine ⟨d / 146097, b, c, e, r2 - 365 * e, by omega, hb, hc, he, hr3, ?_, ?_⟩
  · intro h
    have := hr3' h
    refine ⟨this.1, ?_⟩
    by_cases hc24 : c = 24
    · by_cases hb3 : b < 3
      · have := hr2' hc24 (by have := hr1' hb3; omega)
        omega
      · omega
    · omega
  · simp only [yearOfDays, daysPer400Years, daysPer100Years, daysPer4Years]
    norm_num only
    rw [hr, hbb, hr', hcc, hr'', hee]

theorem yearOfDays_strictMono (d1 d2 : Nat) (h : d1 < d2) :
    (yearOfDays d1).1 < (yearOfDays d2).1 ∨
      ((yearOfDays d1).1 = (yearOfDays d2).1 ∧ (yearOfDays d1).2 < (yearOfDays d2).2) := by
  obtain ⟨a1, b1, c1, e1, yd1, h1, hb1, hc1, he1, hyd1, hl1, hy1⟩ := cycleRep d1
  obtain ⟨a2, b2, c2, e2, yd2, h2, hb2, hc2, he2, hyd2, hl2, hy2⟩ := cycleRep d2
  rw [hy1, hy2]
  simp only
  by_cases hlt : 400 * a1 + 100 * b1 + 4 * c1 + e1 < 400 * a2 + 100 * b2 + 4 * c2 + e2
  · exact Or.inl hlt
  · right
    by_cases heq : 400 * a1 + 100 * b1 + 4 * c1 + e1 = 400 * a2 + 100 * b2 + 4 * c2 + e2
    · refine ⟨heq, ?_⟩
      have ha : a1 = a2 := by omega
      have hb : b1 = b2 := by omega
      have hc : c1 = c2 := by omega
      have he : e1 = e2 := by omega
      subst ha hb hc he
      omega
    · exfalso
      have hgt : 400 * a2 + 100 * b2 + 4 * c2 + e2 + 1 ≤ 400 * a1 + 100 * b1 + 4 * c1 + e1 := by
        omega
      by_cases ha : a2 < a1
      · omega
      · have ha' : a1 = a2 := by omega
        subst ha'
        by_cases hb : b2 < b1
        · omega
        · have hb' : b1 = b2 := by omega
          subst hb'
          by_cases hc : c2 < c1
          · omega
          · have hc' : c1 = c2 := by omega
            subst hc'
            have := hl2
            omega

theorem yearOfDays_yday (d : Nat) :
    (yearOfDays d).2 < 365 ∨
      ((yearOfDays d).2 = 365 ∧ isLeap (((yearOfDays d).1 : Int) + absoluteZeroYear) = true) := by
  obtain ⟨a, b, c, e, yd, h, hb, hc, he, hyd, hl, hy⟩ := cycleRep d
  rw [hy]
  simp only
  by_cases h365 : yd = 365
  · right
    refine ⟨h365, ?_⟩
    obtain ⟨he3, hcb⟩ := hl h365
    simp only [isLeap, absoluteZeroYear, Bool.and_eq_true, Bool.or_eq_true, decide_eq_true_eq,
      Nat.cast_add, Nat.cast_mul, Nat.cast_ofNat]
    omega
  · left; omega

set_option maxRecDepth 100000 in
theorem monthDay_range_aux : ∀ leap : Bool, ∀ yd, yd < 366 → (yd < 365 ∨ leap = true) →
    1 ≤ (monthDay leap yd).1 ∧ (monthDay leap yd).1 ≤ 12 ∧
    1 ≤ (monthDay leap yd).2 ∧ (monthDay leap yd).2 ≤ 31 := by
  decide

set_option maxRecDepth 100000 in
theorem monthDay_step_aux : ∀ leap : Bool, ∀ yd, yd < 365 → (yd + 1 < 365 ∨ leap = true) →
    (monthDay leap yd).1 < (monthDay leap (yd + 1)).1 ∨
    ((monthDay leap yd).1 = (monthDay leap (yd + 1)).1 ∧
      (monthDay leap yd).2 < (monthDay leap (yd + 1)).2) := by
  decide


/-! ## Lemmas on the timestamp -/

theorem appendInt_eq (b : List Char) (x : Int) (width : Nat) :
    appendInt b x width = b ++ fmtInt x width := by
  unfold fmtInt appendInt
  by_cases h : x < 0 <;> simp [h]

theorem appendTZ_eq (b : List Char) (z : Zone) : appendTZ b z = b ++ fmtTZ z := by
  unfold fmtTZ appendTZ
  by_cases h : z.name = ""
  · by_cases h2 : z.offset.tdiv 60 < 0 <;> simp [h, h2, appendInt_eq]
  · simp [h]

theorem format_timeLayout (t : Time) :
    (t.Format timeLayout).data =
      fmtInt t.Year 4 ++ '-' :: (fmtInt t.Month 2 ++ '-' :: (fmtInt t.Day 2 ++ ' ' ::
        (fmtInt t.Hour 2 ++ ':' :: (fmtInt t.Minute 2 ++ ':' :: (fmtInt t.Second 2 ++ ' ' ::
          fmtTZ t.zone))))) := by
  have h : (t.Format timeLayout).data =
      appendTZ (appendInt (appendInt (appendInt (appendInt (appendInt (appendInt [] t.Year 4
        ++ ['-']) t.Month 2 ++ ['-']) t.Day 2 ++ [' ']) t.Hour 2 ++ [':']) t.Minute 2
        ++ [':']) t.Second 2 ++ [' ']) t.zone := rfl
  rw [h]
  simp only [appendInt_eq, appendTZ_eq, List.append_assoc, List.nil_append, List.singleton_append,
    List.cons_append]


theorem utoaLoop_small (f u : Nat) (acc : List Char) (h : u < 10) :
    utoaLoop f u acc = digitChar u :: acc := by
  cases f with
  | zero => rfl
  | succ f => simp [utoaLoop]; omega

theorem utoaLoop_step (f u : Nat) (acc : List Char) (h : 10 ≤ u) :
    utoaLoop (f + 1) u acc = utoaLoop f (u / 10) (digitChar (u % 10) :: acc) := by
  simp [utoaLoop, h]

theorem utoa_lt_10 (u : Nat) (h : u < 10) : utoa u = [digitChar u] :=
  utoaLoop_small u u [] h

theorem utoa_lt_100 (u : Nat) (h1 : 10 ≤ u) (h2 : u < 100) :
    utoa u = [digitChar (u / 10), digitChar (u % 10)] := by
  obtain ⟨f, rfl⟩ : ∃ f, u = f + 1 := ⟨u - 1, by omega⟩
  rw [utoa, utoaLoop_step _ _ _ h1, utoaLoop_small _ _ _ (by omega)]

theorem utoa_lt_1000 (u : Nat) (h1 : 100 ≤ u) (h2 : u < 1000) :
    utoa u = [digitChar (u / 100), digitChar (u / 10 % 10), digitChar (u % 10)] := by
  obtain ⟨f, rfl⟩ : ∃ f, u = f + 2 := ⟨u - 2, by omega⟩
  rw [utoa, utoaLoop_step _ _ _ (by omega), utoaLoop_step _ _ _ (by omega),
    utoaLoop_small _ _ _ (by omega)]
  congr 2
  omega

theorem utoa_lt_10000 (u : Nat) (h1 : 1000 ≤ u) (h2 : u < 10000) :
    utoa u = [digitChar (u / 1000), digitChar (u / 100 % 10), digitChar (u / 10 % 10),
      digitChar (u % 10)] := by
  obtain ⟨f, rfl⟩ : ∃ f, u = f + 3 := ⟨u - 3, by omega⟩
  rw [utoa, utoaLoop_step _ _ _ (by omega), utoaLoop_step _ _ _ (by omega),
    utoaLoop_step _ _ _ (by omega), utoaLoop_small _ _ _ (by omega)]
  have e1 : (f + 3) / 10 / 10 / 10 = (f + 3) / 1000 := by omega
  have e2 : (f + 3) / 10 / 10 % 10 = (f + 3) / 100 % 10 := by omega
  rw [e1, e2]

theorem fmtInt_two (n : Nat) (h : n < 100) : fmtInt (n : Int) 2 = twoDigits n := by
  have hn : ¬ ((n : Int) < 0) := by omega
  simp only [fmtInt, appendInt, hn, if_false, Int.natAbs_ofNat, List.nil_append, twoDigits]
  by_cases h1 : n < 10
  · rw [utoa_lt_10 n h1]
    have e1 : n / 10 = 0 := by omega
    have e2 : n % 10 = n := by omega
    rw [e1, e2]
    rfl
  · rw [utoa_lt_100 n (by omega) h]
    rfl

theorem fmtInt_four (y : Int) (h0 : 0 ≤ y) (h1 : y ≤ 9999) :
    fmtInt y 4 = fourDigits y.toNat := by
  obtain ⟨n, rfl⟩ : ∃ n : Nat, y = n := ⟨y.toNat, by omega⟩
  have hn : ¬ ((n : Int) < 0) := by omega
  have hlt : n < 10000 := by omega
  simp only [fmtInt, appendInt, hn, if_false, Int.natAbs_ofNat, List.nil_append, fourDigits,
    Int.toNat_ofNat]
  by_cases c1 : n < 10
  · rw [utoa_lt_10 n c1]
    have e1 : n / 1000 = 0 := by omega
    have e2 : n / 100 % 10 = 0 := by omega
    have e3 : n / 10 % 10 = 0 := by omega
    have e4 : n % 10 = n := by omega
    rw [e1, e2, e3, e4]
    rfl
  · by_cases c2 : n < 100
    · rw [utoa_lt_100 n (by omega) c2]
      have e1 : n / 1000 = 0 := by omega
      have e2 : n / 100 % 10 = 0 := by omega
      have e3 : n / 10 % 10 = n / 10 := by omega
      rw [e1, e2, e3]
      rfl
    · by_cases c3 : n < 1000
      · rw [utoa_lt_1000 n (by omega) c3]
        have e1 : n / 1000 = 0 := by omega
        have e2 : n / 100 % 10 = n / 100 := by omega
        rw [e1, e2]
        rfl
      · rw [utoa_lt_10000 n (by omega) hlt]
        rfl

theorem absClock_range (abs : Nat) :
    (absClock abs).1 < 24 ∧ (absClock abs).2.1 < 60 ∧ (absClock abs).2.2 < 60 := by
  simp only [absClock, secondsPerDay, secondsPerHour, secondsPerMinute]
  omega

theorem absDate_range (abs : Nat) :
    1 ≤ (absDate abs).2.1 ∧ (absDate abs).2.1 ≤ 12 ∧
    1 ≤ (absDate abs).2.2.1 ∧ (absDate abs).2.2.1 ≤ 31 := by
  simp only [absDate, absYearDay_eq]
  rcases yearOfDays_yday (abs / secondsPerDay) with h | ⟨h, hl⟩
  · exact monthDay_range_aux _ _ (by omega) (Or.inl h)
  · exact monthDay_range_aux _ _ (by omega) (Or.inr hl)

theorem handler_body (detect : String → String) (r : Request) (now : Time) :
    (handler (newResponse detect) r now).body =
      pagePrefix ++ now.Format timeLayout ++ pageSuffix := by
  have h : (handler (newResponse detect) r now).body =
      "" ++ ("" ++ Sprintf pageTemplate [now.Format timeLayout]) := rfl
  rw [h, sprintf_template]
  apply String.ext
  simp [String.data_append, finishPrintf]

theorem format_civil_data (t : Time) (hy0 : 0 ≤ t.Year) (hy1 : t.Year ≤ 9999)
    (hz : t.zone.name ≠ "") :
    (t.Format timeLayout).data =
      fourDigits t.Year.toNat ++ '-' :: (twoDigits t.Month ++ '-' :: (twoDigits t.Day ++ ' ' ::
        (twoDigits t.Hour ++ ':' :: (twoDigits t.Minute ++ ':' :: (twoDigits t.Second ++ ' ' ::
          t.zone.name.data))))) := by
  obtain ⟨_, hm, _, hd⟩ := absDate_range t.abs
  obtain ⟨hh, hmi, hs⟩ := absClock_range t.abs
  rw [format_timeLayout, fmtInt_four _ hy0 hy1, fmtInt_two t.Month (by unfold Time.Month; omega),
    fmtInt_two t.Day (by unfold Time.Day; omega), fmtInt_two t.Hour (by unfold Time.Hour; omega),
    fmtInt_two t.Minute (by unfold Time.Minute; omega),
    fmtInt_two t.Second (by unfold Time.Second; omega)]
  have : fmtTZ t.zone = t.zone.name.data := by simp [fmtTZ, appendTZ, hz]
  rw [this]


/-! ## Lemmas on pattern matches -/

theorem matchAt_sep {α : Type} (pat : List (α → Bool)) (c : α)
    (hc : ∀ p ∈ pat, p c = false) (u ys : List α) :
    matchAt pat (u ++ c :: ys) = matchAt pat (u ++ [c]) := by
  induction pat generalizing u with
  | nil => simp [matchAt]
  | cons p ps ih =>
    cases u with
    | nil => simp [matchAt, hc p (List.mem_cons_self _ _)]
    | cons x u =>
      show (p x && matchAt ps (u ++ c :: ys)) = (p x && matchAt ps (u ++ [c]))
      rw [ih (fun q hq => hc q (List.mem_cons_of_mem _ hq))]

theorem countMatches_sep {α : Type} (pat : List (α → Bool)) (hne : pat ≠ []) (c : α)
    (hc : ∀ p ∈ pat, p c = false) (xs ys : List α) :
    countMatches pat (xs ++ c :: ys) = countMatches pat (xs ++ [c]) + countMatches pat ys := by
  obtain ⟨p, ps, rfl⟩ := List.exists_cons_of_ne_nil hne
  induction xs with
  | nil =>
    simp [countMatches, matchAt, hc p (List.mem_cons_self _ _)]
  | cons x xs ih =>
    show (if matchAt (p :: ps) ((x :: xs) ++ c :: ys) = true then 1 else 0) +
        countMatches (p :: ps) (xs ++ c :: ys) =
      (if matchAt (p :: ps) ((x :: xs) ++ [c]) = true then 1 else 0) +
        countMatches (p :: ps) (xs ++ [c]) + countMatches (p :: ps) ys
    rw [ih, matchAt_sep _ c hc (x :: xs) ys]
    omega

theorem countMatches_nil {α : Type} (pat : List (α → Bool)) (hne : pat ≠ []) :
    countMatches pat [] = 0 := by
  obtain ⟨p, ps, rfl⟩ := List.exists_cons_of_ne_nil hne
  simp [countMatches, matchAt]

theorem countMatches_line {α : Type} (pat : List (α → Bool)) (hne : pat ≠ [])
    (l rest : List α) (h : endsInSeparator pat l = true) :
    countMatches pat (l ++ rest) = countMatches pat l + countMatches pat rest := by
  rcases List.eq_nil_or_concat l with rfl | ⟨xs, c, rfl⟩
  · simp [countMatches_nil pat hne]
  · have hc : ∀ p ∈ pat, p c = false := by
      simpa [endsInSeparator, List.getLast?_concat] using h
    rw [List.concat_eq_append, List.append_assoc, List.singleton_append,
      countMatches_sep pat hne c hc]

theorem countMatches_lines (pat : List (Char → Bool)) (hne : pat ≠ [])
    (ls : List String) (rest : List Char)
    (h : ls.all (fun l => endsInSeparator pat l.data) = true) :
    countMatches pat ((ls.map String.data).flatten ++ rest) =
      (ls.map (fun l => countMatches pat l.data)).sum + countMatches pat rest := by
  induction ls with
  | nil => simp
  | cons s ss ih =>
    simp only [List.all_cons, Bool.and_eq_true] at h
    simp only [List.map_cons, List.flatten_cons, List.append_assoc, List.sum_cons]
    rw [countMatches_line pat hne _ _ h.1, ih h.2]
    omega

theorem timestampPattern_ne : timestampPattern ≠ [] := by
  simp [timestampPattern]

theorem pageSuffix_data :
    pageSuffix.data = '<' :: (("/div>\n" :: pageFoot.tail).map String.data).flatten := by
  have h1 : pageFoot = ("<" ++ "/div>\n") :: pageFoot.tail := by decide
  rw [pageSuffix, joinLines_data]
  conv_lhs => rw [h1]
  rfl

set_option maxRecDepth 100000 in
theorem count_pagePrefix (rest : List Char) :
    countMatches timestampPattern (pagePrefix.data ++ rest) =
      countMatches timestampPattern rest := by
  rw [pagePrefix, joinLines_data, countMatches_lines _ timestampPattern_ne _ _ (by decide)]
  have h : ((pageHead ++ [gradientText] ++ pageBody).map
      (fun l => countMatches timestampPattern l.data)).sum = 0 := by decide
  rw [h, Nat.zero_add]

set_option maxRecDepth 100000 in
theorem count_body (ts : List Char) :
    countMatches timestampPattern (pagePrefix.data ++ (ts ++ pageSuffix.data)) =
      countMatches timestampPattern (ts ++ ['<']) := by
  rw [count_pagePrefix, pageSuffix_data,
    countMatches_sep _ timestampPattern_ne '<' (by decide)]
  have h := countMatches_lines _ timestampPattern_ne ("/div>\n" :: pageFoot.tail) []
    (by decide)
  rw [List.append_nil] at h
  rw [h, countMatches_nil _ timestampPattern_ne]
  have h2 : (("/div>\n" :: pageFoot.tail).map
      (fun l => countMatches timestampPattern l.data)).sum = 0 := by decide
  rw [h2]
  rfl

theorem matchAt_map {α β : Type} (f : α → β) (pat : List (α → Bool)) (patB : List (β → Bool))
    (h : List.Forall₂ (fun p q => ∀ c, p c = q (f c)) pat patB) (l : List α) :
    matchAt pat l = matchAt patB (l.map f) := by
  induction h generalizing l with
  | nil => simp [matchAt]
  | cons hpq _ ih =>
    cases l with
    | nil => simp [matchAt]
    | cons c cs => simp [matchAt, hpq c, ih cs]

theorem countMatches_map {α β : Type} (f : α → β) (pat : List (α → Bool))
    (patB : List (β → Bool))
    (h : List.Forall₂ (fun p q => ∀ c, p c = q (f c)) pat patB) (l : List α) :
    countMatches pat l = countMatches patB (l.map f) := by
  induction l with
  | nil => simp [countMatches, matchAt_map f pat patB h]
  | cons c cs ih =>
    simp only [countMatches, List.map_cons, ← ih]
    rw [matchAt_map f pat patB h (c :: cs)]
    rfl

theorem classify_digit (c : Char) : isDigitByte c = (classify c == CharClass.digit) := by
  by_cases h : isDigitByte c = true
  · simp [classify, h]
  · have h1 : isDigitByte c = false := by simpa using h
    have : classify c ≠ CharClass.digit := by
      unfold classify
      split_ifs <;> simp_all
    simp [h1, this]

theorem classify_dash (c : Char) : (c == '-') = (classify c == CharClass.dash) := by
  by_cases h : c = '-'
  · subst h; decide
  · have : classify c ≠ CharClass.dash := by
      unfold classify
      split_ifs <;> simp_all
    simp [h, this]

theorem classify_space (c : Char) : (c == ' ') = (classify c == CharClass.space) := by
  by_cases h : c = ' '
  · subst h; decide
  · have : classify c ≠ CharClass.space := by
      unfold classify
      split_ifs <;> simp_all
    simp [h, this]

theorem classify_colon (c : Char) : (c == ':') = (classify c == CharClass.colon) := by
  by_cases h : c = ':'
  · subst h; decide
  · have : classify c ≠ CharClass.colon := by
      unfold classify
      split_ifs <;> simp_all
    simp [h, this]

theorem classify_letter (c : Char) : isLetterByte c = (classify c == CharClass.letter) := by
  by_cases h : isLetterByte c = true
  · have h1 : isDigitByte c = false := by
      simp only [isLetterByte, isDigitByte, decide_eq_true_eq, decide_eq_false_iff_not] at h ⊢
      omega
    have h2 : c ≠ '-' := by rintro rfl; exact absurd h (by decide)
    have h3 : c ≠ ' ' := by rintro rfl; exact absurd h (by decide)
    have h4 : c ≠ ':' := by rintro rfl; exact absurd h (by decide)
    simp [classify, h, h1, h2, h3, h4]
  · have : classify c ≠ CharClass.letter := by
      unfold classify
      split_ifs <;> simp_all
    simp [h, this]

theorem timestampPattern_classify :
    List.Forall₂ (fun p q => ∀ c, p c = q (classify c)) timestampPattern classPattern := by
  unfold timestampPattern classPattern
  repeat first
    | exact List.Forall₂.nil
    | refine List.Forall₂.cons ?_ ?_
    | exact classify_digit
    | exact classify_dash
    | exact classify_space
    | exact classify_colon
    | exact classify_letter

theorem count_letters (m : Nat) :
    countMatches classPattern (List.replicate m CharClass.letter ++ [CharClass.other]) = 0 := by
  induction m with
  | zero => decide
  | succ m ih =>
    rw [List.replicate_succ, List.cons_append, countMatches, ih]
    simp [matchAt, classPattern]

theorem replicate_digit_shift (k : Nat) (X : List CharClass) :
    List.replicate k CharClass.digit ++ (CharClass.digit :: X) =
      CharClass.digit :: (List.replicate k CharClass.digit ++ X) := by
  induction k with
  | zero => rfl
  | succ k ih => rw [List.replicate_succ, List.cons_append, ih, List.cons_append]

theorem count_digit_run (k : Nat) (X : List CharClass) :
    countMatches classPattern (List.replicate k CharClass.digit ++
      (CharClass.digit :: CharClass.digit :: CharClass.digit :: CharClass.digit :: X)) =
    countMatches classPattern
      (CharClass.digit :: CharClass.digit :: CharClass.digit :: CharClass.digit :: X) := by
  induction k with
  | zero => rfl
  | succ k ih =>
    rw [List.replicate_succ, List.cons_append, countMatches, ih]
    rw [replicate_digit_shift, replicate_digit_shift, replicate_digit_shift,
      replicate_digit_shift]
    simp [matchAt, classPattern]

theorem count_core (m : Nat) :
    countMatches classPattern
      (CharClass.digit :: CharClass.digit :: CharClass.digit :: CharClass.digit ::
        CharClass.dash :: CharClass.digit :: CharClass.digit :: CharClass.dash ::
        CharClass.digit :: CharClass.digit :: CharClass.space ::
        CharClass.digit :: CharClass.digit :: CharClass.colon ::
        CharClass.digit :: CharClass.digit :: CharClass.colon ::
        CharClass.digit :: CharClass.digit :: CharClass.space ::
        (List.replicate (m + 3) CharClass.letter ++ [CharClass.other])) = 1 := by
  have hT := count_letters (m + 3)
  have e : List.replicate (m + 3) CharClass.letter ++ [CharClass.other] =
      CharClass.letter :: CharClass.letter :: CharClass.letter ::
        (List.replicate m CharClass.letter ++ [CharClass.other]) := by
    simp [List.replicate_succ]
  rw [e] at hT ⊢
  generalize List.replicate m CharClass.letter ++ [CharClass.other] = T at hT ⊢
  simp only [countMatches] at hT ⊢
  simp [matchAt, classPattern] at hT ⊢
  omega

theorem count_dash (X : List CharClass) :
    countMatches classPattern (CharClass.dash :: X) = countMatches classPattern X := by
  rw [countMatches]
  simp [matchAt, classPattern]

theorem digitChar_isDigit (n : Nat) (h : n < 10) : isDigitByte (digitChar n) = true := by
  interval_cases n <;> decide

theorem utoaLoop_digits (f u : Nat) (acc : List Char) (hf : u ≤ f)
    (hacc : ∀ c ∈ acc, isDigitByte c = true) :
    ∀ c ∈ utoaLoop f u acc, isDigitByte c = true := by
  induction f generalizing u acc with
  | zero =>
    intro c hc
    have hu : u = 0 := by omega
    subst hu
    simp only [utoaLoop, List.mem_cons] at hc
    rcases hc with rfl | hc
    · decide
    · exact hacc c hc
  | succ f ih =>
    intro c hc
    by_cases h10 : 10 ≤ u
    · rw [utoaLoop_step _ _ _ h10] at hc
      refine ih (u / 10) _ (by omega) ?_ c hc
      intro d hd
      rcases List.mem_cons.mp hd with rfl | hd
      · exact digitChar_isDigit _ (by omega)
      · exact hacc d hd
    · rw [utoaLoop_small _ _ _ (by omega)] at hc
      rcases List.mem_cons.mp hc with rfl | hc
      · exact digitChar_isDigit _ (by omega)
      · exact hacc c hc

theorem utoa_digits (u : Nat) : ∀ c ∈ utoa u, isDigitByte c = true :=
  utoaLoop_digits u u [] (Nat.le_refl u) (by simp)

theorem map_classify_digits (l : List Char) (h : ∀ c ∈ l, isDigitByte c = true) :
    l.map classify = List.replicate l.length CharClass.digit := by
  induction l with
  | nil => rfl
  | cons c cs ih =>
    have hc : classify c = CharClass.digit := by
      simp [classify, h c (List.mem_cons_self _ _)]
    rw [List.map_cons, hc, ih (fun d hd => h d (List.mem_cons_of_mem _ hd))]
    rfl

theorem map_classify_letters (l : List Char) (h : ∀ c ∈ l, isLetterByte c = true) :
    l.map classify = List.replicate l.length CharClass.letter := by
  induction l with
  | nil => rfl
  | cons c cs ih =>
    have hc : classify c = CharClass.letter := by
      have := classify_letter c
      rw [h c (List.mem_cons_self _ _)] at this
      simpa using this.symm
    rw [List.map_cons, hc, ih (fun d hd => h d (List.mem_cons_of_mem _ hd))]
    rfl

/-- The digits of `fmtInt`: the padding zeros and the decimal digits. -/
theorem fmtInt_shape (x : Int) (width : Nat) :
    ∃ ds : List Char, fmtInt x width = (if x < 0 then ['-'] else []) ++ ds ∧
      (∀ c ∈ ds, isDigitByte c = true) ∧ width ≤ ds.length := by
  refine ⟨List.replicate (width - (utoa x.natAbs).length) '0' ++ utoa x.natAbs, ?_, ?_, ?_⟩
  · unfold fmtInt appendInt
    by_cases h : x < 0 <;> simp [h]
  · intro c hc
    rcases List.mem_append.mp hc with hc | hc
    · rw [List.eq_of_mem_replicate hc]; decide
    · exact utoa_digits _ c hc
  · simp only [List.length_append, List.length_replicate]; omega

theorem fmtInt_four_classes (x : Int) :
    ∃ k : Nat, (fmtInt x 4).map classify =
      (if x < 0 then [CharClass.dash] else []) ++ (List.replicate k CharClass.digit ++
        [CharClass.digit, CharClass.digit, CharClass.digit, CharClass.digit]) := by
  obtain ⟨ds, h1, h2, h3⟩ := fmtInt_shape x 4
  refine ⟨ds.length - 4, ?_⟩
  rw [h1, List.map_append, map_classify_digits ds h2]
  have e : ds.length = (ds.length - 4) + 4 := by omega
  conv_lhs => rw [e, List.replicate_add]
  by_cases hx : x < 0
  · simp only [hx, if_true]; rfl
  · simp only [hx, if_false]; rfl

theorem twoDigits_classes (n : Nat) (h : n < 100) :
    (fmtInt (n : Int) 2).map classify = [CharClass.digit, CharClass.digit] := by
  rw [fmtInt_two n h, twoDigits, map_classify_digits]
  · rfl
  · intro c hc
    simp only [List.mem_cons, List.mem_singleton, List.not_mem_nil, or_false] at hc
    rcases hc with rfl | rfl
    · exact digitChar_isDigit _ (by omega)
    · exact digitChar_isDigit _ (by omega)


theorem fmtTZ_named (z : Zone) (h : z.name ≠ "") : fmtTZ z = z.name.data := by
  simp [fmtTZ, appendTZ, h]

theorem count_timestamp (t : Time) (hlen : 3 ≤ t.zone.name.data.length)
    (hlet : ∀ c ∈ t.zone.name.data, isLetterByte c = true) :
    countMatches timestampPattern ((t.Format timeLayout).data ++ ['<']) = 1 := by
  obtain ⟨_, hm, _, hd⟩ := absDate_range t.abs
  obtain ⟨hh, hmi, hs⟩ := absClock_range t.abs
  have hz : t.zone.name ≠ "" := by
    intro h
    rw [h] at hlen
    simp at hlen
  obtain ⟨k, hk⟩ := fmtInt_four_classes t.Year
  obtain ⟨m, hm3⟩ : ∃ m, t.zone.name.data.length = m + 3 := ⟨_, (Nat.sub_add_cancel hlen).symm⟩
  rw [countMatches_map classify _ _ timestampPattern_classify, format_timeLayout,
    fmtTZ_named _ hz]
  simp only [List.map_append, List.map_cons, List.map_nil]
  rw [hk, twoDigits_classes t.Month (by unfold Time.Month; omega),
    twoDigits_classes t.Day (by unfold Time.Day; omega),
    twoDigits_classes t.Hour (by unfold Time.Hour; omega),
    twoDigits_classes t.Minute (by unfold Time.Minute; omega),
    twoDigits_classes t.Second (by unfold Time.Second; omega),
    map_classify_letters _ hlet, hm3]
  have e1 : classify '-' = CharClass.dash := by decide
  have e2 : classify ' ' = CharClass.space := by decide
  have e3 : classify ':' = CharClass.colon := by decide
  have e4 : classify '<' = CharClass.other := by decide
  rw [e1, e2, e3, e4]
  simp only [List.append_assoc, List.cons_append, List.nil_append]
  by_cases hx : t.Year < 0
  · simp only [hx, if_true, List.cons_append, List.nil_append]
    rw [count_dash, count_digit_run, count_core]
  · simp only [hx, if_false, List.nil_append]
    rw [count_digit_run, count_core]

theorem handler_body_data (detect : String → String) (r : Request) (now : Time) :
    (handler (newResponse detect) r now).body.data =
      pagePrefix.data ++ ((now.Format timeLayout).data ++ pageSuffix.data) := by
  rw [handler_body, String.data_append, String.data_append, List.append_assoc]

theorem pagePrefix_split :
    pagePrefix = joinLines (pageHead.take 3) ++ ("<head>" ++ (("\n" ++
      joinLines (pageHead.drop 4 ++ [gradientText] ++ pageBody.take 40) ++ "    ") ++
      (metaRefresh ++ ("\n" ++ ("</head>" ++ ("\n" ++ joinLines (pageBody.drop 42))))))) := by
  have h1 : pageHead = pageHead.take 3 ++ ("<head>" ++ "\n") :: pageHead.drop 4 := by decide
  have h2 : pageBody = pageBody.take 40 ++
      ("    " ++ metaRefresh ++ "\n") :: ("</head>" ++ "\n") :: pageBody.drop 42 := by decide
  rw [pagePrefix]
  conv_lhs => rw [h1, h2]
  simp only [joinLines_append, joinLines, List.cons_append, List.nil_append,
    String.append_assoc, String.append_empty]

theorem pageSuffix_split :
    pageSuffix = (joinLines (pageFoot.take 2) ++ "            ") ++
      (refreshLink ++ ("\n" ++ joinLines (pageFoot.drop 3))) := by
  have h1 : pageFoot = pageFoot.take 2 ++
      ("            " ++ refreshLink ++ "\n") :: pageFoot.drop 3 := by decide
  rw [pageSuffix]
  conv_lhs => rw [h1]
  simp only [joinLines_append, joinLines, List.cons_append, List.nil_append,
    String.append_assoc, String.append_empty]

set_option maxRecDepth 100000 in
theorem head_not_closed :
    occurrences "</head>" (("\n" ++
      joinLines (pageHead.drop 4 ++ [gradientText] ++ pageBody.take 40) ++ "    ") ++
      metaRefresh) = 0 := by
  have hne : ("</head>".data.map (fun c x => x == c)) ≠ [] := by simp
  have e : ((("\n" ++ joinLines (pageHead.drop 4 ++ [gradientText] ++ pageBody.take 40) ++
      "    ") ++ metaRefresh : String)).data =
      "\n".data ++ (((pageHead.drop 4 ++ [gradientText] ++ pageBody.take 40).map
        String.data).flatten ++ ("    ".data ++ metaRefresh.data)) := by
    simp only [String.data_append, joinLines_data, List.append_assoc]
  unfold occurrences
  rw [e, countMatches_line _ hne _ _ (by decide),
    countMatches_lines _ hne _ _ (by decide)]
  have h1 : countMatches ("</head>".data.map (fun c x => x == c)) "\n".data = 0 := by decide
  have h2 : ((pageHead.drop 4 ++ [gradientText] ++ pageBody.take 40).map
      (fun l => countMatches ("</head>".data.map (fun c x => x == c)) l.data)).sum = 0 := by
    decide
  have h3 : countMatches ("</head>".data.map (fun c x => x == c))
      ("    ".data ++ metaRefresh.data) = 0 := by decide
  rw [h1, h2, h3]

theorem head_first : occurrences "<head>" (joinLines (pageHead.take 3)) = 0 := by
  decide

theorem htmlUnsafe_digit (c : Char) (h : isDigitByte c = true) : htmlUnsafe c = false := by
  by_contra hc
  have hc' : htmlUnsafe c = true := by simpa using hc
  simp only [htmlUnsafe, Bool.or_eq_true, decide_eq_true_eq] at hc'
  rcases hc' with (((rfl | rfl) | rfl) | rfl) | rfl <;> exact absurd h (by decide)

theorem fmtInt_safe (x : Int) (width : Nat) : ∀ c ∈ fmtInt x width, htmlUnsafe c = false := by
  obtain ⟨ds, h1, h2, _⟩ := fmtInt_shape x width
  intro c hc
  rw [h1] at hc
  rcases List.mem_append.mp hc with hc | hc
  · by_cases hx : x < 0
    · simp only [hx, if_true, List.mem_singleton] at hc
      subst hc
      decide
    · simp [hx] at hc
  · exact htmlUnsafe_digit c (h2 c hc)

theorem fmtTZ_safe (z : Zone) (hz : ∀ c ∈ z.name.data, htmlUnsafe c = false) :
    ∀ c ∈ fmtTZ z, htmlUnsafe c = false := by
  intro c hc
  by_cases hn : z.name = ""
  · simp only [fmtTZ, appendTZ, hn, ne_eq, not_true_eq_false, if_false, appendInt_eq,
      List.nil_append] at hc
    rcases List.mem_append.mp hc with hc | hc
    · rcases List.mem_append.mp hc with hc | hc
      · by_cases hneg : z.offset.tdiv 60 < 0
        · simp only [hneg, if_true, List.mem_singleton] at hc
          subst hc; decide
        · simp only [hneg, if_false, List.mem_singleton] at hc
          subst hc; decide
      · exact fmtInt_safe _ _ c hc
    · exact fmtInt_safe _ _ c hc
  · rw [fmtTZ_named z hn] at hc
    exact hz c hc

theorem format_safe (t : Time) (hz : ∀ c ∈ t.zone.name.data, htmlUnsafe c = false) :
    ∀ c ∈ (t.Format timeLayout).data, htmlUnsafe c = false := by
  intro c hc
  rw [format_timeLayout] at hc
  simp only [List.mem_append, List.mem_cons] at hc
  rcases hc with hc | rfl | hc | rfl | hc | rfl | hc | rfl | hc | rfl | hc | rfl | hc
  · exact fmtInt_safe _ _ c hc
  · decide
  · exact fmtInt_safe _ _ c hc
  · decide
  · exact fmtInt_safe _ _ c hc
  · decide
  · exact fmtInt_safe _ _ c hc
  · decide
  · exact fmtInt_safe _ _ c hc
  · decide
  · exact fmtInt_safe _ _ c hc
  · decide
  · exact fmtTZ_safe _ hz c hc


/-! ## Lemmas on the order of timestamps -/

/-- Composition of comparisons: the first decides unless it finds equality. -/
theorem lexCompare_append {α : Type} [LT α] [DecidableRel (fun a b : α => a < b)]
    [DecidableEq α] (a b x y : List α) (hlen : a.length = b.length) :
    lexCompare (a ++ x) (b ++ y) = (lexCompare a b).then (lexCompare x y) := by
  induction a generalizing b with
  | nil =>
    cases b with
    | nil => simp [lexCompare, Ordering.then]
    | cons d b => simp at hlen
  | cons c a ih =>
    cases b with
    | nil => simp at hlen
    | cons d b =>
      have hl : a.length = b.length := by simpa using hlen
      show lexCompare (c :: (a ++ x)) (d :: (b ++ y)) = _
      simp only [lexCompare]
      by_cases h1 : c < d
      · simp [h1, Ordering.then]
      · by_cases h2 : c = d
        · subst h2
          simp [h1, ih b hl]
        · simp [h1, h2, Ordering.then]

theorem lexCompare_self (l : List Char) : lexCompare l l = Ordering.eq := by
  induction l with
  | nil => rfl
  | cons c cs ih => simp [lexCompare, ih, Char.lt_irrefl]

theorem digitChar_lt (i j : Nat) (hi : i < 10) (hj : j < 10) :
    (digitChar i < digitChar j ↔ i < j) ∧ (digitChar i = digitChar j ↔ i = j) := by
  interval_cases i <;> interval_cases j <;> decide

theorem lexCompare_digit (i j : Nat) (hi : i < 10) (hj : j < 10) (x y : List Char) :
    lexCompare (digitChar i :: x) (digitChar j :: y) =
      if i < j then Ordering.lt else if i = j then lexCompare x y else Ordering.gt := by
  obtain ⟨h1, h2⟩ := digitChar_lt i j hi hj
  simp only [lexCompare, h1, h2]

theorem lexCompare_twoDigits (n1 n2 : Nat) (h1 : n1 < 100) (h2 : n2 < 100) :
    lexCompare (twoDigits n1) (twoDigits n2) = lexCompare [(n1 : Int)] [(n2 : Int)] := by
  simp only [twoDigits]
  rw [lexCompare_digit _ _ (by omega) (by omega), lexCompare_digit _ _ (by omega) (by omega)]
  simp only [lexCompare, Nat.cast_lt, Nat.cast_inj]
  split_ifs <;> first | rfl | omega

theorem lexCompare_fourDigits (n1 n2 : Nat) (h1 : n1 < 10000) (h2 : n2 < 10000) :
    lexCompare (fourDigits n1) (fourDigits n2) = lexCompare [(n1 : Int)] [(n2 : Int)] := by
  simp only [fourDigits]
  rw [lexCompare_digit _ _ (by omega) (by omega), lexCompare_digit _ _ (by omega) (by omega),
    lexCompare_digit _ _ (by omega) (by omega), lexCompare_digit _ _ (by omega) (by omega)]
  simp only [lexCompare, Nat.cast_lt, Nat.cast_inj]
  split_ifs <;> first | rfl | omega

theorem monthDay_strictMono (leap : Bool) (yd1 yd2 : Nat) (h : yd1 < yd2)
    (hv : yd2 < 365 ∨ (yd2 = 365 ∧ leap = true)) :
    (monthDay leap yd1).1 < (monthDay leap yd2).1 ∨
    ((monthDay leap yd1).1 = (monthDay leap yd2).1 ∧
      (monthDay leap yd1).2 < (monthDay leap yd2).2) := by
  induction yd2 with
  | zero => omega
  | succ n ih =>
    have hstep := monthDay_step_aux leap n (by omega) (by
      rcases hv with hv | ⟨_, hl⟩
      · exact Or.inl hv
      · exact Or.inr hl)
    by_cases hn : yd1 = n
    · subst hn
      exact hstep
    · have := ih (by omega) (Or.inl (by omega))
      omega

theorem yearOfDays_mono (d1 d2 : Nat) (h : d1 ≤ d2) : (yearOfDays d1).1 ≤ (yearOfDays d2).1 := by
  rcases Nat.lt_or_eq_of_le h with h | h
  · have := yearOfDays_strictMono d1 d2 h
    omega
  · rw [h]

/-- The date of an absolute time grows with the day number, strictly. -/
theorem absDate_strictMono (abs1 abs2 : Nat) (h : abs1 / secondsPerDay < abs2 / secondsPerDay) :
    (absDate abs1).1 < (absDate abs2).1 ∨
    ((absDate abs1).1 = (absDate abs2).1 ∧
      ((absDate abs1).2.1 < (absDate abs2).2.1 ∨
        ((absDate abs1).2.1 = (absDate abs2).2.1 ∧
          (absDate abs1).2.2.1 < (absDate abs2).2.2.1))) := by
  simp only [absDate, absYearDay_eq]
  rcases yearOfDays_strictMono _ _ h with hy | ⟨hy, hd⟩
  · left; omega
  · right
    refine ⟨by omega, ?_⟩
    rw [hy]
    apply monthDay_strictMono _ _ _ hd
    rw [← hy]
    rcases yearOfDays_yday (abs2 / secondsPerDay) with h2 | ⟨h2, hl⟩
    · exact Or.inl h2
    · right
      refine ⟨h2, ?_⟩
      rw [hy]
      exact hl

theorem absDate_same_day (abs1 abs2 : Nat) (h : abs1 / secondsPerDay = abs2 / secondsPerDay) :
    absDate abs1 = absDate abs2 := by
  simp only [absDate, absYearDay_eq, h]

theorem absClock_mono (abs1 abs2 : Nat) (h : abs1 / secondsPerDay = abs2 / secondsPerDay)
    (hle : abs1 ≤ abs2) :
    (absClock abs1).1 < (absClock abs2).1 ∨
    ((absClock abs1).1 = (absClock abs2).1 ∧
      ((absClock abs1).2.1 < (absClock abs2).2.1 ∨
        ((absClock abs1).2.1 = (absClock abs2).2.1 ∧
          (absClock abs1).2.2 ≤ (absClock abs2).2.2))) := by
  simp only [absClock, secondsPerDay, secondsPerHour, secondsPerMinute] at h ⊢
  omega

theorem abs_of_range (t : Time) (h0 : -62167219200 ≤ t.sec + t.zone.offset)
    (h1 : t.sec + t.zone.offset < 253402300800) :
    (t.abs : Int) = t.sec + t.zone.offset + unixToAbsolute := by
  have hp : ((2 : Int) ^ 64) = 18446744073709551616 := by norm_num
  unfold Time.abs
  rw [hp]
  unfold unixToAbsolute at *
  rw [Int.toNat_of_nonneg (Int.emod_nonneg _ (by norm_num))]
  apply Int.emod_eq_of_lt <;> omega

theorem year_of_range (t : Time) (h0 : -62167219200 ≤ t.sec + t.zone.offset)
    (h1 : t.sec + t.zone.offset < 253402300800) : 0 ≤ t.Year ∧ t.Year ≤ 9999 := by
  have ha := abs_of_range t h0 h1
  unfold unixToAbsolute at ha
  have hlo : 106751990353566 ≤ t.abs / secondsPerDay := by
    unfold secondsPerDay secondsPerHour secondsPerMinute
    omega
  have hhi : t.abs / secondsPerDay ≤ 106751994005990 := by
    unfold secondsPerDay secondsPerHour secondsPerMinute
    omega
  have e1 : (yearOfDays 106751990353566).1 = 292277022399 := by decide
  have e2 : (yearOfDays 106751994005990).1 = 292277032398 := by decide
  have m1 := yearOfDays_mono _ _ hlo
  have m2 := yearOfDays_mono _ _ hhi
  rw [e1] at m1
  rw [e2] at m2
  simp only [Time.Year, absDate, absYearDay_eq, absoluteZeroYear]
  omega

/-- The local date and time never runs backwards while the absolute time grows. -/
theorem civil_mono (t1 t2 : Time) (h : t1.abs ≤ t2.abs) :
    lexCompare t1.civil t2.civil ≠ Ordering.gt := by
  obtain ⟨hm1, hm1', hd1, hd1'⟩ := absDate_range t1.abs
  by_cases hd : t1.abs / secondsPerDay = t2.abs / secondsPerDay
  · have hdate := absDate_same_day _ _ hd
    have hc := absClock_mono _ _ hd h
    simp only [Time.civil, Time.Year, Time.Month, Time.Day, Time.Hour, Time.Minute, Time.Second,
      hdate, lexCompare, lt_self_iff_false, if_false, if_true, Nat.cast_lt, Nat.cast_inj]
    rcases hc with hc | ⟨hc, hc2 | ⟨hc2, hc3⟩⟩
    · simp [hc]
    · simp [hc, hc2]
    · rcases Nat.lt_or_eq_of_le hc3 with hc3 | hc3
      · simp [hc, hc2, hc3]
      · simp [hc, hc2, hc3]
  · have hlt : t1.abs / secondsPerDay < t2.abs / secondsPerDay := by
      have := Nat.div_le_div_right (c := secondsPerDay) h
      omega
    have hdate := absDate_strictMono _ _ hlt
    simp only [Time.civil, Time.Year, Time.Month, Time.Day, lexCompare, Nat.cast_lt,
      Nat.cast_inj]
    rcases hdate with hy | ⟨hy, hm | ⟨hm, hdd⟩⟩
    · simp [hy]
    · simp [hy, hm]
    · simp [hy, hm, hdd]

theorem lexCompare_cons_same (c : Char) (x y : List Char) :
    lexCompare (c :: x) (c :: y) = lexCompare x y := by
  simp [lexCompare, Char.lt_irrefl]

theorem lexCompare_cons_int (a b : Int) (x y : List Int) :
    lexCompare (a :: x) (b :: y) = (lexCompare [a] [b]).then (lexCompare x y) :=
  lexCompare_append [a] [b] x y rfl

theorem lexCompare_four (n1 n2 : Nat) (x y : List Char) :
    lexCompare (fourDigits n1 ++ x) (fourDigits n2 ++ y) =
      (lexCompare (fourDigits n1) (fourDigits n2)).then (lexCompare x y) :=
  lexCompare_append (fourDigits n1) (fourDigits n2) x y rfl

theorem lexCompare_two (n1 n2 : Nat) (x y : List Char) :
    lexCompare (twoDigits n1 ++ x) (twoDigits n2 ++ y) =
      (lexCompare (twoDigits n1) (twoDigits n2)).then (lexCompare x y) :=
  lexCompare_append (twoDigits n1) (twoDigits n2) x y rfl

theorem then_eq (o : Ordering) : o.then Ordering.eq = o := by
  cases o <;> rfl

/-- Within the years 0 to 9999 and with the same zone in use, two timestamps compare
as strings the way the local dates and times they display compare. -/
theorem format_compare (t1 t2 : Time) (hz : t1.zone = t2.zone)
    (hy1 : 0 ≤ t1.Year ∧ t1.Year ≤ 9999) (hy2 : 0 ≤ t2.Year ∧ t2.Year ≤ 9999) :
    lexCompare (t1.Format timeLayout).data (t2.Format timeLayout).data =
      lexCompare t1.civil t2.civil := by
  obtain ⟨_, hm1, _, hd1⟩ := absDate_range t1.abs
  obtain ⟨hh1, hmi1, hs1⟩ := absClock_range t1.abs
  obtain ⟨_, hm2, _, hd2⟩ := absDate_range t2.abs
  obtain ⟨hh2, hmi2, hs2⟩ := absClock_range t2.abs
  have b1 : t1.Month < 100 := by unfold Time.Month; omega
  have b2 : t1.Day < 100 := by unfold Time.Day; omega
  have b3 : t1.Hour < 100 := by unfold Time.Hour; omega
  have b4 : t1.Minute < 100 := by unfold Time.Minute; omega
  have b5 : t1.Second < 100 := by unfold Time.Second; omega
  have c1 : t2.Month < 100 := by unfold Time.Month; omega
  have c2 : t2.Day < 100 := by unfold Time.Day; omega
  have c3 : t2.Hour < 100 := by unfold Time.Hour; omega
  have c4 : t2.Minute < 100 := by unfold Time.Minute; omega
  have c5 : t2.Second < 100 := by unfold Time.Second; omega
  rw [format_timeLayout, format_timeLayout, fmtInt_four _ hy1.1 hy1.2,
    fmtInt_four _ hy2.1 hy2.2, fmtInt_two _ b1, fmtInt_two _ b2, fmtInt_two _ b3,
    fmtInt_two _ b4, fmtInt_two _ b5, fmtInt_two _ c1, fmtInt_two _ c2, fmtInt_two _ c3,
    fmtInt_two _ c4, fmtInt_two _ c5, hz]
  rw [lexCompare_four, lexCompare_cons_same,
    lexCompare_two, lexCompare_cons_same,
    lexCompare_two, lexCompare_cons_same,
    lexCompare_two, lexCompare_cons_same,
    lexCompare_two, lexCompare_cons_same,
    lexCompare_two, lexCompare_cons_same,
    lexCompare_self, then_eq]
  rw [lexCompare_fourDigits _ _ (by omega) (by omega), lexCompare_twoDigits _ _ b1 c1,
    lexCompare_twoDigits _ _ b2 c2, lexCompare_twoDigits _ _ b3 c3,
    lexCompare_twoDigits _ _ b4 c4, lexCompare_twoDigits _ _ b5 c5,
    Int.toNat_of_nonneg hy1.1, Int.toNat_of_nonneg hy2.1]
  rw [Time.civil, Time.civil, lexCompare_cons_int _ _ (_ :: _) (_ :: _),
    lexCompare_cons_int _ _ (_ :: _) (_ :: _), lexCompare_cons_int _ _ (_ :: _) (_ :: _),
    lexCompare_cons_int _ _ (_ :: _) (_ :: _), lexCompare_cons_int _ _ (_ :: _) (_ :: _)]


theorem matchAt_append {α : Type} (pat : List (α → Bool)) (l r : List α)
    (h : matchAt pat l = true) : matchAt pat (l ++ r) = true := by
  induction pat generalizing l with
  | nil => simp [matchAt]
  | cons p ps ih =>
    cases l with
    | nil => simp [matchAt] at h
    | cons c cs =>
      simp only [matchAt, Bool.and_eq_true] at h
      show (p c && matchAt ps (cs ++ r)) = true
      simp [h.1, ih cs h.2]

theorem fourDigits_classes (n : Nat) (h : n < 10000) :
    (fourDigits n).map classify =
      [CharClass.digit, CharClass.digit, CharClass.digit, CharClass.digit] := by
  rw [fourDigits, map_classify_digits]
  · rfl
  · intro c hc
    simp only [List.mem_cons, List.mem_singleton, List.not_mem_nil, or_false] at hc
    rcases hc with rfl | rfl | rfl | rfl <;> exact digitChar_isDigit _ (by omega)

/-- Within the years 0 to 9999 and with an abbreviation of three or more letters the
whole timestamp matches the pattern from its first character. -/
theorem match_timestamp (t : Time) (hy0 : 0 ≤ t.Year) (hy1 : t.Year ≤ 9999)
    (hlen : 3 ≤ t.zone.name.data.length)
    (hlet : ∀ c ∈ t.zone.name.data, isLetterByte c = true) :
    matchAt timestampPattern (t.Format timeLayout).data = true := by
  obtain ⟨_, hm, _, hd⟩ := absDate_range t.abs
  obtain ⟨hh, hmi, hs⟩ := absClock_range t.abs
  obtain ⟨m, hm3⟩ : ∃ m, t.zone.name.data.length = m + 3 := ⟨_, (Nat.sub_add_cancel hlen).symm⟩
  rw [matchAt_map classify _ _ timestampPattern_classify, format_timeLayout,
    fmtTZ_named _ (by intro h; rw [h] at hlen; simp at hlen)]
  simp only [List.map_append, List.map_cons, List.map_nil]
  rw [fmtInt_four _ hy0 hy1, fourDigits_classes _ (by omega),
    twoDigits_classes t.Month (by unfold Time.Month; omega),
    twoDigits_classes t.Day (by unfold Time.Day; omega),
    twoDigits_classes t.Hour (by unfold Time.Hour; omega),
    twoDigits_classes t.Minute (by unfold Time.Minute; omega),
    twoDigits_classes t.Second (by unfold Time.Second; omega),
    map_classify_letters _ hlet, hm3]
  have e1 : classify '-' = CharClass.dash := by decide
  have e2 : classify ' ' = CharClass.space := by decide
  have e3 : classify ':' = CharClass.colon := by decide
  rw [e1, e2, e3]
  simp [matchAt, classPattern, List.replicate_succ]

theorem body_after_pagePrefix (detect : String → String) (r : Request) (now : Time) :
    (handler (newResponse detect) r now).body.data.drop pagePrefix.data.length =
      (now.Format timeLayout).data ++ pageSuffix.data := by
  rw [handler_body_data, List.drop_left]

/-! ## Lemmas on dispatch and start-up -/

theorem backtrackTo_ge (out : List Char) (d w : Nat) (h : d ≤ w) :
    d ≤ backtrackTo out d w := by
  induction w with
  | zero => simpa [backtrackTo] using h
  | succ w ih =>
    unfold backtrackTo
    split_ifs with hc
    · exact ih (by omega)
    · exact h

theorem cleanLoop_rooted (fuel : Nat) (rest o : List Char) :
    ∃ o1, cleanLoop true fuel rest ('/' :: o) 1 = '/' :: o1 := by
  induction fuel generalizing rest o with
  | zero => exact ⟨o, rfl⟩
  | succ fuel ih =>
    cases rest with
    | nil => exact ⟨o, rfl⟩
    | cons c r1 =>
      unfold cleanLoop
      simp only
      by_cases h1 : c = '/'
      · rw [if_pos h1]
        exact ih _ _
      · rw [if_neg h1]
        by_cases h2 : c = '.' ∧ (r1 = [] ∨ r1.head? = some '/')
        · rw [if_pos h2]
          exact ih _ _
        · rw [if_neg h2]
          by_cases h3 : c = '.' ∧ r1.head? = some '.' ∧ (r1.tail = [] ∨ r1.tail.head? = some '/')
          · rw [if_pos h3]
            by_cases h4 : ('/' :: o).length > 1
            · rw [if_pos h4]
              have hk := backtrackTo_ge ('/' :: o) 1 (('/' :: o).length - 1) (by omega)
              obtain ⟨k, hk1⟩ : ∃ k, backtrackTo ('/' :: o) 1 (('/' :: o).length - 1) = k + 1 :=
                ⟨_, (Nat.sub_add_cancel hk).symm⟩
              rw [hk1, List.take_succ_cons]
              exact ih _ _
            · rw [if_neg h4]
              simp only [Bool.not_true, Bool.false_eq_true, if_false]
              exact ih _ _
          · rw [if_neg h3]
            by_cases h5 : ((true && decide (('/' :: o).length ≠ 1)) ||
                (!true && decide (('/' :: o).length ≠ 0))) = true
            · rw [if_pos h5, List.cons_append, List.cons_append]
              exact ih _ _
            · rw [if_neg h5, List.cons_append]
              exact ih _ _

theorem Clean_rooted (p : String) (q : List Char) (h : p.data = '/' :: q) :
    ∃ o1, (Clean p).data = '/' :: o1 := by
  have hne : p ≠ "" := by
    intro he
    rw [he] at h
    simp at h
  unfold Clean
  simp only [hne, if_false, h, List.head?_cons, decide_True, if_true, List.tail_cons]
  obtain ⟨o1, ho⟩ := cleanLoop_rooted ((q.length + 1) + 1) q []
  simp only [List.length_cons]
  rw [ho]
  simp

theorem cleanPath_head (p : String) : ∃ o1, (cleanPath p).data = '/' :: o1 := by
  unfold cleanPath
  by_cases hp : p = ""
  · simp [hp]
  · simp only [hp, if_false]
    obtain ⟨q, hq⟩ : ∃ q, (if p.data.head? ≠ some '/' then "/" ++ p else p).data = '/' :: q := by
      by_cases hh : p.data.head? = some '/'
      · simp only [hh, ne_eq, not_true_eq_false, if_false]
        cases hd : p.data with
        | nil => rw [hd] at hh; simp at hh
        | cons c cs =>
          rw [hd] at hh
          simp only [List.head?_cons, Option.some.injEq] at hh
          exact ⟨cs, by rw [hh]⟩
      · simp only [hh, ne_eq, not_false_eq_true, if_true]
        exact ⟨p.data, by simp [String.data_append]⟩
    generalize (if p.data.head? ≠ some '/' then "/" ++ p else p) = p1 at hq
    obtain ⟨o1, ho⟩ := Clean_rooted p1 q hq
    by_cases c1 : p1.data.getLast? = some '/' ∧ Clean p1 ≠ "/"
    · rw [if_pos c1]
      by_cases c2 : p1.data.length = (Clean p1).data.length + 1 ∧
          (Clean p1).data.isPrefixOf p1.data = true
      · rw [if_pos c2]
        exact ⟨q, hq⟩
      · rw [if_neg c2]
        exact ⟨o1 ++ "/".data, by rw [String.data_append, ho]; rfl⟩
    · rw [if_neg c1]
      exact ⟨o1, ho⟩

theorem mainMux_m : mainMux.m = [("/", HandlerFunc.handler), ("/health", HandlerFunc.healthHandler)] := by
  decide

theorem mainMux_es : mainMux.es = [("/", HandlerFunc.handler)] := by
  decide

theorem mainMux_hosts : mainMux.hosts = false := by
  decide

theorem mainMux_handler (host path : String) :
    mainMux.handler host path =
      if path = "/health" then Dispatch.serve HandlerFunc.healthHandler "/health"
      else if path.data.head? = some '/' then Dispatch.serve HandlerFunc.handler "/"
      else Dispatch.notFound := by
  unfold ServeMux.handler ServeMux.muxMatch
  rw [mainMux_m, mainMux_es, mainMux_hosts]
  by_cases h1 : path = "/health"
  · subst h1
    simp
  · by_cases h2 : path = "/"
    · subst h2
      simp
    · have e1 : ("/" : String) ≠ path := fun h => h2 h.symm
      have e2 : ("/health" : String) ≠ path := fun h => h1 h.symm
      simp [List.find?, e1, e2, h1]
      cases hp : path.data with
      | nil => simp
      | cons c cs =>
        by_cases hc : c = '/'
        · simp [hc]
        · have h3 : ('/' == c) = false := by
            simp; exact fun h => hc h.symm
          have h4 : ['/'].isPrefixOf (c :: cs) = false := by
            simp [List.isPrefixOf, h3]
          simp [hc, h4]

theorem append_slash_ne (c : String) (hc : c ≠ "") :
    c ++ "/" ≠ "/" ∧ c ++ "/" ≠ "/health" := by
  constructor
  · intro h
    have := congrArg String.length h
    simp [String.length_append] at this
    exact hc (String.ext (List.length_eq_zero.mp this))
  · intro h
    have h1 := congrArg (fun s => s.data.getLast?) h
    simp [String.data_append] at h1

theorem mainMux_shouldRedirect (host path : String) :
    mainMux.shouldRedirectRLocked host path = false := by
  unfold ServeMux.shouldRedirectRLocked
  rw [mainMux_m]
  simp only
  split_ifs with h1 h2 h3
  · rfl
  · rfl
  · exfalso
    have hp : path ≠ "" := by
      intro he
      rw [he] at h2
      simp at h2
    have hhp : host ++ path ≠ "" := by
      intro he
      have := congrArg String.length he
      simp [String.length_append] at this
      exact hp (String.ext (List.length_eq_zero.mp this.2))
    obtain ⟨a1, a2⟩ := append_slash_ne path hp
    obtain ⟨b1, b2⟩ := append_slash_ne (host ++ path) hhp
    simp [List.find?, Ne.symm a1, Ne.symm a2, Ne.symm b1, Ne.symm b2] at h3
  · rfl

theorem mainMux_dispatch (stripHostPort : String → String) (r : Request) :
    mainMux.dispatch stripHostPort r =
      if r.RequestURI = "*" then Dispatch.badRequest
      else if r.Method = "CONNECT" then
        (if r.URL.Path = "/health" then Dispatch.serve HandlerFunc.healthHandler "/health"
         else if r.URL.Path.data.head? = some '/' then Dispatch.serve HandlerFunc.handler "/"
         else Dispatch.notFound)
      else if cleanPath r.URL.Path ≠ r.URL.Path then
        Dispatch.redirect (cleanPath r.URL.Path) r.URL.RawQuery
      else if r.URL.Path = "/health" then Dispatch.serve HandlerFunc.healthHandler "/health"
      else Dispatch.serve HandlerFunc.handler "/" := by
  unfold ServeMux.dispatch ServeMux.Handler
  simp only [mainMux_shouldRedirect, Bool.false_eq_true, if_false, mainMux_handler]
  by_cases h0 : r.RequestURI = "*"
  · simp [h0]
  · by_cases h1 : r.Method = "CONNECT"
    · simp [h0, h1]
    · by_cases h2 : cleanPath r.URL.Path = r.URL.Path
      · obtain ⟨o1, ho⟩ := cleanPath_head r.URL.Path
        rw [h2] at ho
        simp [h0, h1, h2, ho]
      · simp [h0, h1, h2]

theorem main_trace (err : String) :
    main (some err) =
      [Event.stdout "Server starting on port :8080\n",
       Event.stdout "Visit http://localhost:8080 to see the current date and time\n",
       Event.listen ":8080" mainMux,
       Event.log err,
       Event.exit 1] := by
  have h : Sprint [err] = err := by
    apply String.ext
    simp [Sprint, String.join]
  simp only [main, logFatal, h]
  rfl


theorem main_serving :
    main none =
      [Event.stdout "Server starting on port :8080\n",
       Event.stdout "Visit http://localhost:8080 to see the current date and time\n",
       Event.listen ":8080" mainMux] := by
  rfl

/-! ## The claims -/

/-- C1: for every request and every clock reading, the response that `handler`
produces on a fresh response writer has status 200, and the header that is sent,
fixed when the first byte of the body is written, is exactly `Content-Type: text/html`. -/
theorem handler_status_contentType (detect : String → String) (r : Request) (now : Time) :
    (handler (newResponse detect) r now).wroteHeader = true ∧
    (handler (newResponse detect) r now).status = 200 ∧
    (handler (newResponse detect) r now).sentHeader = [("Content-Type", ["text/html"])] ∧
    (handler (newResponse detect) r now).sentHeader.Values "Content-Type" =
      some ["text/html"] :=
  ⟨rfl, rfl, rfl, rfl⟩

/-- C2: the body written by `handler` is `pagePrefix ++ timestamp ++ pageSuffix` for
two fixed strings that depend neither on the request nor on the clock. The template
has one substitution point, between `<div class="time">` and `</div>`: a second
operand is not consumed, and with no operand the verb is reported once. The line of
the stylesheet with the two `%%` is rendered with a single per cent sign for each,
and these are the only per cent signs of the rendered page. -/
theorem handler_body_template :
    (∀ (detect : String → String) (r : Request) (now : Time),
      (handler (newResponse detect) r now).body =
        pagePrefix ++ now.Format timeLayout ++ pageSuffix) ∧
    (∀ a b : String, Sprintf pageTemplate [a, b] =
      pagePrefix ++ a ++ pageSuffix ++ "%!(EXTRA string=" ++ b ++ ")") ∧
    Sprintf pageTemplate [] = pagePrefix ++ "%!s(MISSING)" ++ pageSuffix ∧
    (∃ p : String, pagePrefix = p ++ "<div class=\"time\">") ∧
    (∃ s : String, pageSuffix = "</div>" ++ s) ∧
    Sprintf gradientFormat [] = gradientText ∧
    pageTemplate.data.count '%' = 5 ∧
    pagePrefix.data.count '%' = 2 ∧ pageSuffix.data.count '%' = 0 := by
  refine ⟨handler_body, ?_, sprintf_template_missing, pagePrefix_ends, pageSuffix_starts,
    by decide, percent_counts⟩
  intro a b
  rw [sprintf_template]
  apply String.ext
  simp [String.data_append, finishPrintf, extraList]

/-- C3, as the specification states it, fails in two places: in the year 10000 the
year has five digits, and a zone without abbreviation is printed as its numeric
offset. -/
theorem timestamp_beyond_pattern :
    (year10000.Year = 10000 ∧
      (handler (newResponse id) getRoot year10000).body =
        pagePrefix ++ "10000-01-01 00:00:00 UTC" ++ pageSuffix ∧
      year10000.Format timeLayout ≠
        timestampText year10000.Year.toNat year10000.Month year10000.Day year10000.Hour
          year10000.Minute year10000.Second year10000.zone.name) ∧
    (epochUnnamed.zone.name = "" ∧
      epochUnnamed.Format timeLayout = "1970-01-01 05:30:00 +0530" ∧
      epochUnnamed.Format timeLayout ≠
        timestampText epochUnnamed.Year.toNat epochUnnamed.Month epochUnnamed.Day
          epochUnnamed.Hour epochUnnamed.Minute epochUnnamed.Second
          epochUnnamed.zone.name) := by
  refine ⟨⟨by decide, ?_, by decide⟩, by decide, by decide, by decide⟩
  rw [handler_body]
  have h : year10000.Format timeLayout = "10000-01-01 00:00:00 UTC" := by decide
  rw [h]

/-- C3 (amended): when the local year lies between 0 and 9999 and the zone in use has
an abbreviation `Z`, the timestamp that `handler` interpolates is the four digits of
the year, `-`, the two digits of the month, `-`, the two digits of the day, a space,
the two digits of the hour, `:`, of the minute, `:`, of the second, a space and `Z`;
month, day, hour, minute and second lie in their calendar ranges. -/
theorem handler_timestamp_civil (detect : String → String) (r : Request) (now : Time)
    (hy0 : 0 ≤ now.Year) (hy1 : now.Year ≤ 9999) (hz : now.zone.name ≠ "") :
    now.Format timeLayout =
      timestampText now.Year.toNat now.Month now.Day now.Hour now.Minute now.Second
        now.zone.name ∧
    (handler (newResponse detect) r now).body =
      pagePrefix ++ timestampText now.Year.toNat now.Month now.Day now.Hour now.Minute
        now.Second now.zone.name ++ pageSuffix ∧
    (1 ≤ now.Month ∧ now.Month ≤ 12 ∧ 1 ≤ now.Day ∧ now.Day ≤ 31 ∧
      now.Hour < 24 ∧ now.Minute < 60 ∧ now.Second < 60) := by
  have h : now.Format timeLayout =
      timestampText now.Year.toNat now.Month now.Day now.Hour now.Minute now.Second
        now.zone.name := by
    apply String.ext
    rw [format_civil_data now hy0 hy1 hz, timestampText]
  refine ⟨h, ?_, ?_⟩
  · rw [handler_body, h]
  · obtain ⟨h1, h2, h3, h4⟩ := absDate_range now.abs
    obtain ⟨h5, h6, h7⟩ := absClock_range now.abs
    exact ⟨h1, h2, h3, h4, h5, h6, h7⟩

/-- C3, the example of the specification: at local time 2024-03-15 09:30:00 in New
York the timestamp is `2024-03-15 09:30:00 EDT` and the body contains it. -/
theorem handler_timestamp_march15 :
    (0 ≤ march15.Year ∧ march15.Year ≤ 9999 ∧ march15.zone.name ≠ "") ∧
    march15.Format timeLayout = "2024-03-15 09:30:00 EDT" ∧
    (handler (newResponse id) getRoot march15).body =
      pagePrefix ++ "2024-03-15 09:30:00 EDT" ++ pageSuffix := by
  have h := handler_timestamp_civil id getRoot march15 (by decide) (by decide) (by decide)
  have e : timestampText march15.Year.toNat march15.Month march15.Day march15.Hour
      march15.Minute march15.Second march15.zone.name = "2024-03-15 09:30:00 EDT" := by decide
  rw [e] at h
  exact ⟨⟨by decide, by decide, by decide⟩, h.1, h.2.1⟩

/-- C4: for every request, `healthHandler` on a fresh response writer yields status
200 and the body `OK`, two characters and nothing else; it takes no clock reading. -/
theorem healthHandler_status_body (detect : String → String) (r : Request) :
    (healthHandler (newResponse detect) r).status = 200 ∧
    (healthHandler (newResponse detect) r).body = "OK" ∧
    (healthHandler (newResponse detect) r).body.data = ['O', 'K'] :=
  ⟨rfl, rfl, rfl⟩

/-- C5, as the specification states it, fails: the pattern `/` that `main` registers
matches every path, so a request to `/foo` is served by `handler` and does not get
the reply of the not-found handler. -/
theorem other_path_reaches_handler :
    getFoo.URL.Path ≠ "/" ∧
    mainMux.dispatch (fun _ => "localhost") getFoo = Dispatch.serve HandlerFunc.handler "/" ∧
    mainMux.dispatch (fun _ => "localhost") getFoo ≠ Dispatch.notFound ∧
    (HandlerFunc.handler.ServeHTTP (newResponse id) getFoo march15).body =
      (handler (newResponse id) getRoot march15).body := by
  have h : mainMux.dispatch (fun _ => "localhost") getFoo =
      Dispatch.serve HandlerFunc.handler "/" := by
    rw [mainMux_dispatch]
    rfl
  refine ⟨by decide, h, ?_, rfl⟩
  rw [h]
  exact fun hc => Dispatch.noConfusion hc

/-- C5 (amended): with the two bindings that `main` registers and hands to the
listener, the request URI `*` is answered with status 400. Any other request whose
method is not `CONNECT` is answered by a redirect to the canonical path when its
path is not in canonical form (as `//foo`, `/a/../health` and `foo`); when its path
is in canonical form it is served by `healthHandler` if the path is exactly
`/health` and by `handler` for every other path (as `/` and `/foo`), because the
pattern `/` matches all paths. A `CONNECT` request is matched without cleaning its
path, and only there a path that does not start with `/` gets the reply of the
not-found handler. So `healthHandler` serves exactly the requests with path
`/health` and a URI other than `*`. -/
theorem dispatch_by_pattern (stripHostPort : String → String) (r : Request) :
    mainMux.dispatch stripHostPort r =
      (if r.RequestURI = "*" then Dispatch.badRequest
       else if r.Method = "CONNECT" then
         (if r.URL.Path = "/health" then Dispatch.serve HandlerFunc.healthHandler "/health"
          else if r.URL.Path.data.head? = some '/' then
            Dispatch.serve HandlerFunc.handler "/"
          else Dispatch.notFound)
       else if cleanPath r.URL.Path ≠ r.URL.Path then
         Dispatch.redirect (cleanPath r.URL.Path) r.URL.RawQuery
       else if r.URL.Path = "/health" then
         Dispatch.serve HandlerFunc.healthHandler "/health"
       else Dispatch.serve HandlerFunc.handler "/") ∧
    ((∃ pattern, mainMux.dispatch stripHostPort r =
        Dispatch.serve HandlerFunc.healthHandler pattern) ↔
      (r.RequestURI ≠ "*" ∧ r.URL.Path = "/health")) ∧
    (cleanPath "/" = "/" ∧ cleanPath "/foo" = "/foo" ∧ cleanPath "/health" = "/health" ∧
      cleanPath "//foo" = "/foo" ∧ cleanPath "/a/../health" = "/health" ∧
      cleanPath "foo" = "/foo") ∧
    mainMux.m = [("/", HandlerFunc.handler), ("/health", HandlerFunc.healthHandler)] ∧
    (∀ serveResult, Event.listen ":8080" mainMux ∈ main serveResult) := by
  refine ⟨mainMux_dispatch stripHostPort r, ?_, by decide, mainMux_m, ?_⟩
  · rw [mainMux_dispatch]
    have hc : cleanPath "/health" = "/health" := by decide
    constructor
    · rintro ⟨pattern, h⟩
      by_cases h0 : r.RequestURI = "*"
      · simp [h0] at h
      · refine ⟨h0, ?_⟩
        by_contra hp
        simp only [h0, hp, if_false] at h
        split_ifs at h <;> simp at h
    · rintro ⟨h0, hp⟩
      refine ⟨"/health", ?_⟩
      simp [h0, hp, hc]
  · intro serveResult
    cases serveResult with
    | none => rw [main_serving]; simp
    | some err => rw [main_trace]; simp

/-- C6, as the specification states it, fails in two places. In Sao Paulo the zone
abbreviation is `-03`, which has no letters, and the body holds no match of the
pattern. And in the year 10000 on a server in UTC the abbreviation has three
letters but the year has five digits, so the timestamp does not match the pattern
from its first character. -/
theorem no_match_for_numeric_zone :
    (march15SaoPaulo.Format timeLayout = "2024-03-15 10:30:00 -03" ∧
      countMatches timestampPattern
        (handler (newResponse id) getRoot march15SaoPaulo).body.data = 0) ∧
    (3 ≤ year10000.zone.name.data.length ∧
      (∀ c ∈ year10000.zone.name.data, isLetterByte c = true) ∧
      year10000.Format timeLayout = "10000-01-01 00:00:00 UTC" ∧
      matchAt timestampPattern (year10000.Format timeLayout).data = false) := by
  refine ⟨⟨by decide, ?_⟩, by decide, by decide, by decide, by decide⟩
  rw [handler_body_data, count_body]
  decide

/-- C6 (amended): when the local year lies between 0 and 9999 and the zone
abbreviation in use consists of three or more letters, the timestamp that `handler`
interpolates matches the pattern `YYYY-MM-DD HH:MM:SS <abbreviation>`, the body
matches it at the position where the timestamp starts, and this is the only
position of the body at which the pattern matches. -/
theorem handler_one_timestamp (detect : String → String) (r : Request) (now : Time)
    (hy0 : 0 ≤ now.Year) (hy1 : now.Year ≤ 9999)
    (hlen : 3 ≤ now.zone.name.data.length)
    (hlet : ∀ c ∈ now.zone.name.data, isLetterByte c = true) :
    matchAt timestampPattern (now.Format timeLayout).data = true ∧
    matchAt timestampPattern
      ((handler (newResponse detect) r now).body.data.drop pagePrefix.data.length) = true ∧
    countMatches timestampPattern (handler (newResponse detect) r now).body.data = 1 := by
  have hm := match_timestamp now hy0 hy1 hlen hlet
  refine ⟨hm, ?_, ?_⟩
  · rw [body_after_pagePrefix]
    exact matchAt_append _ _ _ hm
  · rw [handler_body_data, count_body]
    exact count_timestamp now hlen hlet

/-- C6, an instance: at 2024-03-15 09:30:00 EDT the timestamp matches the pattern
and the body has exactly one match. -/
theorem handler_one_timestamp_march15 :
    (0 ≤ march15.Year ∧ march15.Year ≤ 9999) ∧
    3 ≤ march15.zone.name.data.length ∧
    (∀ c ∈ march15.zone.name.data, isLetterByte c = true) ∧
    matchAt timestampPattern (march15.Format timeLayout).data = true ∧
    countMatches timestampPattern (handler (newResponse id) getRoot march15).body.data = 1 :=
  ⟨⟨by decide, by decide⟩, by decide, by decide,
    (handler_one_timestamp id getRoot march15 (by decide) (by decide) (by decide)
      (by decide)).1,
    (handler_one_timestamp id getRoot march15 (by decide) (by decide) (by decide)
      (by decide)).2.2⟩

/-- C7, as the specification states it, fails in two places. When daylight time
ends in New York the clock is set back: one second after 01:59:59 EDT the timestamp
shows 01:00:00 EST, which is smaller as a date and time and as a string. And from
the year 9999 to the year 10000 the date grows but the string gets smaller. -/
theorem timestamp_runs_back :
    (beforeFallBack.notAfter afterFallBack ∧
      beforeFallBack.Format timeLayout = "2024-11-03 01:59:59 EDT" ∧
      afterFallBack.Format timeLayout = "2024-11-03 01:00:00 EST" ∧
      lexCompare beforeFallBack.civil afterFallBack.civil = Ordering.gt ∧
      lexCompare (beforeFallBack.Format timeLayout).data
        (afterFallBack.Format timeLayout).data = Ordering.gt) ∧
    (endOf9999.notAfter year10000 ∧ endOf9999.zone = year10000.zone ∧
      endOf9999.Format timeLayout = "9999-12-31 23:59:59 UTC" ∧
      year10000.Format timeLayout = "10000-01-01 00:00:00 UTC" ∧
      lexCompare endOf9999.civil year10000.civil = Ordering.lt ∧
      lexCompare (endOf9999.Format timeLayout).data
        (year10000.Format timeLayout).data = Ordering.gt) := by
  decide

/-- C7 (amended): for two instants `t1` not after `t2` at which the same zone (the
same abbreviation and offset) is in use, and whose local times lie between
0000-01-01 00:00:00 and 9999-12-31 23:59:59, the timestamp of `t1` is less than or
equal to the timestamp of `t2`, as the local date and time displayed and as a
string; the two comparisons agree, and both years lie between 0 and 9999. -/
theorem timestamp_monotone (t1 t2 : Time) (hle : t1.notAfter t2) (hz : t1.zone = t2.zone)
    (h0 : -62167219200 ≤ t1.sec + t1.zone.offset)
    (h1 : t2.sec + t2.zone.offset < 253402300800) :
    lexCompare t1.civil t2.civil ≠ Ordering.gt ∧
    lexCompare (t1.Format timeLayout).data (t2.Format timeLayout).data ≠ Ordering.gt ∧
    lexCompare (t1.Format timeLayout).data (t2.Format timeLayout).data =
      lexCompare t1.civil t2.civil ∧
    (0 ≤ t1.Year ∧ t1.Year ≤ 9999) ∧ (0 ≤ t2.Year ∧ t2.Year ≤ 9999) := by
  have hsec : t1.sec ≤ t2.sec := by
    rcases hle with h | ⟨h, _⟩
    · exact Int.le_of_lt h
    · exact Int.le_of_eq h
  have h1' : t1.sec + t1.zone.offset < 253402300800 := by rw [hz]; omega
  have h0' : -62167219200 ≤ t2.sec + t2.zone.offset := by rw [← hz]; omega
  have a1 := abs_of_range t1 h0 h1'
  have a2 := abs_of_range t2 h0' h1
  have habs : t1.abs ≤ t2.abs := by
    have : (t1.abs : Int) ≤ (t2.abs : Int) := by rw [a1, a2, hz]; omega
    exact Int.ofNat_le.mp this
  have y1 := year_of_range t1 h0 h1'
  have y2 := year_of_range t2 h0' h1
  have hc := civil_mono t1 t2 habs
  have hs := format_compare t1 t2 hz y1 y2
  exact ⟨hc, by rw [hs]; exact hc, hs, y1, y2⟩

/-- C7, an instance: two requests five seconds apart on 2024-03-15 in New York. -/
theorem timestamp_monotone_march15 :
    march15.notAfter march15Later ∧ march15.zone = march15Later.zone ∧
    lexCompare (march15.Format timeLayout).data (march15Later.Format timeLayout).data ≠
      Ordering.gt :=
  ⟨by decide, by decide,
    (timestamp_monotone march15 march15Later (by decide) (by decide) (by decide)
      (by decide)).2.1⟩

/-- C8: the body written by `handler` contains the directive
`<meta http-equiv="refresh" content="5">` after the opening tag `<head>` and before
the next `</head>`, and it contains the link `<a href="/">Refresh</a>` to the root
path. -/
theorem handler_body_refresh (detect : String → String) (r : Request) (now : Time) :
    (∃ a b c d : String,
      (handler (newResponse detect) r now).body =
        a ++ ("<head>" ++ (b ++ (metaRefresh ++ (c ++ ("</head>" ++ d))))) ∧
      occurrences "<head>" a = 0 ∧ occurrences "</head>" (b ++ metaRefresh) = 0) ∧
    (∃ e f : String,
      (handler (newResponse detect) r now).body = e ++ (refreshLink ++ f)) ∧
    metaRefresh = "<meta http-equiv=\"refresh\" content=\"5\">" ∧
    refreshLink = "<a href=\"/\">Refresh</a>" := by
  refine ⟨⟨joinLines (pageHead.take 3),
      "\n" ++ joinLines (pageHead.drop 4 ++ [gradientText] ++ pageBody.take 40) ++ "    ",
      "\n", "\n" ++ joinLines (pageBody.drop 42) ++ now.Format timeLayout ++ pageSuffix,
      ?_, head_first, head_not_closed⟩,
    ⟨pagePrefix ++ now.Format timeLayout ++ (joinLines (pageFoot.take 2) ++ "            "),
      "\n" ++ joinLines (pageFoot.drop 3), ?_⟩, rfl, rfl⟩
  · rw [handler_body, pagePrefix_split]
    simp only [String.append_assoc]
  · rw [handler_body]
    conv_lhs => rw [pageSuffix_split]
    simp only [String.append_assoc]

/-- C9, as the specification states it, fails: the zone abbreviation is inserted as
it is, and an abbreviation `<b>` puts the characters `<` and `>` into the page. -/
theorem timestamp_with_markup :
    epochMarkup.Format timeLayout = "1970-01-01 00:00:00 <b>" ∧
    '<' ∈ (epochMarkup.Format timeLayout).data ∧ htmlUnsafe '<' = true ∧
    (handler (newResponse id) getRoot epochMarkup).body =
      pagePrefix ++ "1970-01-01 00:00:00 <b>" ++ pageSuffix := by
  have h : epochMarkup.Format timeLayout = "1970-01-01 00:00:00 <b>" := by decide
  refine ⟨h, by decide, by decide, ?_⟩
  rw [handler_body, h]

/-- C9 (amended): when the zone abbreviation in use contains none of `<`, `>`, `&`,
the double quote and the apostrophe, the timestamp that `handler` inserts between
`<div class="time">` and `</div>` contains none of them either. -/
theorem handler_timestamp_safe (detect : String → String) (r : Request) (now : Time)
    (hz : ∀ c ∈ now.zone.name.data, htmlUnsafe c = false) :
    (∀ c ∈ (now.Format timeLayout).data, htmlUnsafe c = false) ∧
    (handler (newResponse detect) r now).body =
      pagePrefix ++ now.Format timeLayout ++ pageSuffix :=
  ⟨format_safe now hz, handler_body detect r now⟩

/-- C9, an instance: the timestamp 2024-03-15 09:30:00 EDT has no such character. -/
theorem handler_timestamp_safe_march15 :
    (∀ c ∈ march15.zone.name.data, htmlUnsafe c = false) ∧
    (∀ c ∈ (march15.Format timeLayout).data, htmlUnsafe c = false) :=
  ⟨by decide, (handler_timestamp_safe id getRoot march15 (by decide)).1⟩

/-- C10: `main` registers both bindings, prints the banner and the usage hint, and
listens on `:8080`, once; when the listener returns an error, `main` logs it and
exits with status 1, and it does nothing else. -/
theorem main_startup :
    (∀ err : String, main (some err) =
      [Event.stdout "Server starting on port :8080\n",
       Event.stdout "Visit http://localhost:8080 to see the current date and time\n",
       Event.listen ":8080" mainMux,
       Event.log err,
       Event.exit 1]) ∧
    main none =
      [Event.stdout "Server starting on port :8080\n",
       Event.stdout "Visit http://localhost:8080 to see the current date and time\n",
       Event.listen ":8080" mainMux] ∧
    mainMux.m = [("/", HandlerFunc.handler), ("/health", HandlerFunc.healthHandler)] ∧
    (1 : Nat) ≠ 0 :=
  ⟨main_trace, main_serving, mainMux_m, by decide⟩

end TimeDate
